import Mathlib

/-! One-sided put bi-directional bandwidth benchmark: embedding and properties.

A shallow embedding of `c/mpi/one-sided/osu_put_bibw.c` (the two engines
`run_put_with_fence` and `run_put_with_pscw`, `print_bibw` and `main`) and of the
post/start/complete/wait loop of `osu_acc_latency.c`.

Conventions of the embedding.

* A run of an engine is the list of size steps it executes; each step records the
  calls made before the rounds, the calls of every round, and the calls made after
  the rounds, in program order.
* `int` values are integers in the range of a 32-bit `int`, and `int`
  arithmetic wraps around (`wrap_int`): the products `size * window_size` and
  `j * size` and the increment `size * 2` are computed that way. The loop test
  `size <= options.max_message_size` compares `size` with a `size_t` and so
  converts it (`to_size_t`): a `size` that wrapped to a negative value leaves
  the loop, unless the maximum is at least `2^64 - 2^31`; the model does not
  follow a sweep into wrapped sizes and ends it there with `Outcome.overflow`.
* The counts (`iterations`, `skip`, their large variants, `window_size`) are
  natural numbers.
* `double` values are exact rationals.
* `exit(status)` and `return status` in `main` are the same event: the process
  ends with that status.
* Everything the program takes from outside the translated files (the constant
  `LARGE_MESSAGE_SIZE`, the displacement published by the allocator, the measured
  elapsed time, the results of the library calls of `main`) is a field of `World`
  or of `MainInput`.
-/

namespace OsuPutBibw

/-- Window kinds, as named by the source (`enum WINDOW`). -/
inductive WINDOW
  | WIN_CREATE
  | WIN_ALLOCATE
  | WIN_DYNAMIC
  deriving DecidableEq, Repr

/-- Modelled from the spec: the declaration of `enum SYNC` is not part of the
translated files. The source names `PSCW` and `FENCE`; every other selector is
`OTHER`. -/
inductive SYNC
  | PSCW
  | FENCE
  | OTHER (tag : Nat)
  deriving DecidableEq, Repr

/-- Results of option processing, exactly the labels of the two `switch`
statements of `main`. -/
inductive PO
  | PO_CUDA_NOT_AVAIL
  | PO_OPENACC_NOT_AVAIL
  | PO_BAD_USAGE
  | PO_HELP_MESSAGE
  | PO_VERSION_MESSAGE
  | PO_OKAY
  deriving DecidableEq, Repr

/-- The fields of the global `options` that the translated code reads or writes.
`accel_none` stands for `NONE == options.accel`. -/
structure Options where
  min_message_size : Int
  max_message_size : Int
  iterations : Nat
  skip : Nat
  iterations_large : Nat
  skip_large : Nat
  window_size : Nat
  omb_tail_lat : Bool
  graph : Bool
  validate : Bool
  accel_none : Bool
  sync : SYNC
  win : WINDOW
  deriving DecidableEq, Repr

/-- What the engines take from outside the translated files. -/
structure World where
  /-- The constant `LARGE_MESSAGE_SIZE`. -/
  LARGE_MESSAGE_SIZE : Int
  /-- The value of the constant. Its definition is not part of the translated
  files; the threshold of the benchmarks of the repository is 8192, as the
  global `large_message_size` of `osu_acc_latency.c` shows. -/
  large_eq : LARGE_MESSAGE_SIZE = 8192
  /-- The global `disp_remote` after the allocation made for a size. -/
  disp_remote : Int → Int
  /-- The value `t_end - t_start` measured on rank 0 for a size. -/
  elapsed : Int → ℚ

/-- Calls and stores made by an engine, in the order of the source. -/
inductive Ev
  | comm_group
  | malloc_lat (n : Nat)
  | papi_init
  | allocate (rank : Nat) (capacity : Int)
  | graph_alloc (size : Int) (n : Nat)
  | barrier
  | group_incl (destrank : Nat)
  | papi_start
  | wtime
  | fence
  | post (peer : Nat)
  | start (peer : Nat)
  | put (origin_off : Int) (origin_count : Int) (target : Nat)
      (target_disp : Int) (target_count : Int)
  | complete
  | wait
  | store_lat (idx : Nat)
  | store_graph (idx : Nat)
  | tail_lat
  | papi_stop (size : Int)
  | print (out : Option ℚ)
  | store_avg (v : ℚ)
  | graph_plot
  | group_free
  | free_memory (rank : Nat)
  | graph_combined_plot
  | graph_free
  | papi_free
  | free_lat
  | comm_group_free
  deriving DecidableEq, Repr

/-- One iteration of the size loop. -/
structure StepTrace where
  /-- The value of `size` in this iteration. -/
  size : Int
  /-- The global `options` after the threshold test of this iteration. -/
  opts : Options
  /-- Calls before the rounds. -/
  pre : List Ev
  /-- Calls of each round `i = 0 .. skip + iterations - 1`. -/
  rounds : List (List Ev)
  /-- Calls after the rounds. -/
  post : List Ev
  deriving DecidableEq, Repr

/-- How a sweep ended: the loop test failed (`finished`), the increment
`size * 2` wrapped around and the loop test still held on the wrapped value
(`overflow`), or the model ran out of fuel. -/
inductive Outcome
  | finished
  | overflow
  | out_of_fuel
  deriving DecidableEq, Repr

def INT_MAX : Int := 2147483647

def INT_MIN : Int := -2147483648

/-- The value of an integer as a 32-bit `int`: the result of `int` arithmetic
that wraps around. -/
def wrap_int (x : Int) : Int :=
  (x + 2147483648) % 4294967296 - 2147483648

/-- The conversion of an `int` to the 64-bit `size_t`, as made by a comparison
of an `int` with a `size_t`. -/
def to_size_t (x : Int) : Int :=
  x % 18446744073709551616

/-- `print_bibw`: the value written on rank 0, nothing on the other rank. -/
def print_bibw (o : Options) (rank : Nat) (size : Int) (t : ℚ) : Option ℚ :=
  if rank = 0 then
    let tmp : ℚ := (size : ℚ) / 1000000 * (o.iterations : ℚ) * (o.window_size : ℚ)
    some ((tmp / t) * 2)
  else none

/-- The test `if (size > LARGE_MESSAGE_SIZE)` at the head of each size step, with
its two assignments to the global `options`. -/
def switch_counts (w : World) (size : Int) (o : Options) : Options :=
  if size > w.LARGE_MESSAGE_SIZE then
    { o with iterations := o.iterations_large, skip := o.skip_large }
  else o

/-- The inner loop `for (j = 0; j < window_size; j++) MPI_Put(...)`; the offset
`j * size` is an `int` product. -/
def put_batch (size : Int) (window_size : Nat) (target : Nat) (disp : Int) : List Ev :=
  (List.range window_size).map fun (j : Nat) =>
    Ev.put (wrap_int ((j : Int) * size)) size target
      (disp + wrap_int ((j : Int) * size)) size

/-- The value of `disp` during a size step. -/
def disp_of (w : World) (type : WINDOW) (size : Int) : Int :=
  if type = WINDOW.WIN_DYNAMIC then w.disp_remote size else 0

/-- The timing and sample stores of rank 0 after the closing call of round `i`. -/
def record_round (o : Options) (i : Nat) : List Ev :=
  if i ≥ o.skip then
    [Ev.wtime] ++ (if o.omb_tail_lat then [Ev.store_lat (i - o.skip)] else [])
      ++ (if o.graph then [Ev.store_graph (i - o.skip)] else [])
  else []

/-- Round `i` of the fence engine. -/
def fence_round (o : Options) (rank : Nat) (window_size : Nat) (size disp : Int)
    (i : Nat) : List Ev :=
  if rank = 0 then
    (if i = o.skip then [Ev.papi_start, Ev.wtime] else [])
      ++ (if i ≥ o.skip then [Ev.wtime] else [])
      ++ [Ev.fence] ++ put_batch size window_size 1 disp ++ [Ev.fence]
      ++ record_round o i
  else
    (if i = o.skip then [Ev.papi_start] else [])
      ++ [Ev.fence] ++ put_batch size window_size 0 disp ++ [Ev.fence]

/-- Round `i` of the post/start/complete/wait engine. -/
def pscw_round (o : Options) (rank : Nat) (window_size : Nat) (size disp : Int)
    (i : Nat) : List Ev :=
  if rank = 0 then
    (if i = o.skip then [Ev.papi_start, Ev.wtime] else [])
      ++ (if i ≥ o.skip then [Ev.wtime] else [])
      ++ [Ev.post 1, Ev.start 1] ++ put_batch size window_size 1 disp
      ++ [Ev.complete, Ev.wait]
      ++ record_round o i
  else
    (if i = o.skip then [Ev.papi_start] else [])
      ++ [Ev.post 0, Ev.start 0] ++ put_batch size window_size 0 disp
      ++ [Ev.complete, Ev.wait]

/-- The calls after the second barrier of a size step, up to the plot. -/
def report (o : Options) (rank : Nat) (size : Int) (t : ℚ) : List Ev :=
  [Ev.tail_lat, Ev.papi_stop size, Ev.print (print_bibw o rank size t)]
    ++ (if o.graph ∧ rank = 0 then
          [Ev.store_avg
            ((((size : ℚ) / 1000000 * (o.iterations : ℚ) * (o.window_size : ℚ)) / t) * 2)]
        else [])
    ++ (if o.graph then [Ev.graph_plot] else [])

/-- The elapsed time handed to `print_bibw`: measured on rank 0, the initial
`0.0` on the other rank. -/
def elapsed_of (w : World) (rank : Nat) (size : Int) : ℚ :=
  if rank = 0 then w.elapsed size else 0

/-- The call `t_end = MPI_Wtime()` that rank 0 makes after its rounds. -/
def closing_time (rank : Nat) : List Ev :=
  if rank = 0 then [Ev.wtime] else []

/-- A size step of `run_put_with_fence` under the options `o1` left by the
threshold test. The allocation precedes the test in the source and reads no
count; the capacity `size * window_size` is an `int` product. -/
def fence_body (w : World) (rank : Nat) (type : WINDOW) (window_size : Nat)
    (size : Int) (o1 : Options) : StepTrace :=
  let disp := disp_of w type size
  { size := size
    opts := o1
    pre := [Ev.allocate rank (wrap_int (size * (window_size : Int))),
            Ev.graph_alloc size o1.iterations, Ev.barrier]
    rounds := (List.range (o1.skip + o1.iterations)).map
      (fence_round o1 rank window_size size disp)
    post := closing_time rank ++ [Ev.barrier]
      ++ report o1 rank size (elapsed_of w rank size)
      ++ [Ev.free_memory rank] }

/-- Body of the size loop of `run_put_with_fence`: the step and the global
`options` it leaves. -/
def fence_step (w : World) (rank : Nat) (type : WINDOW) (window_size : Nat)
    (size : Int) (o : Options) : StepTrace × Options :=
  let o1 := switch_counts w size o
  (fence_body w rank type window_size size o1, o1)

/-- A size step of `run_put_with_pscw` under the options `o1` left by the
threshold test. The allocation precedes the test in the source and reads no
count; the capacity `size * window_size` is an `int` product. -/
def pscw_body (w : World) (rank : Nat) (type : WINDOW) (window_size : Nat)
    (size : Int) (o1 : Options) : StepTrace :=
  let disp := disp_of w type size
  { size := size
    opts := o1
    pre := [Ev.allocate rank (wrap_int (size * (window_size : Int))),
            Ev.graph_alloc size o1.iterations, Ev.barrier,
            Ev.group_incl (if rank = 0 then 1 else 0)]
    rounds := (List.range (o1.skip + o1.iterations)).map
      (pscw_round o1 rank window_size size disp)
    post := closing_time rank ++ [Ev.barrier]
      ++ report o1 rank size (elapsed_of w rank size)
      ++ [Ev.group_free, Ev.free_memory rank] }

/-- Body of the size loop of `run_put_with_pscw`: the step and the global
`options` it leaves. -/
def pscw_step (w : World) (rank : Nat) (type : WINDOW) (window_size : Nat)
    (size : Int) (o : Options) : StepTrace × Options :=
  let o1 := switch_counts w size o
  (pscw_body w rank type window_size size o1, o1)

/-- The loop `for (size = ...; size <= options.max_message_size; size = size * 2)`
common to both engines, around a loop body. One unit of fuel is spent on each
evaluation of the loop test. The test compares the `int` `size` with the
`size_t` maximum. When the increment `size * 2` does not fit `int` it wraps
around, and the test is made on the wrapped value: it fails, and the loop is
left, unless the maximum is at least `2^64 - 2^31`. For such a maximum the
source goes on with the wrapped size; the model does not follow it and ends the
sweep with `Outcome.overflow`. -/
def size_sweep (body : Int → Options → StepTrace × Options) :
    Nat → Int → Options → List StepTrace × Options × Outcome
  | 0, _, o => ([], o, Outcome.out_of_fuel)
  | fuel + 1, size, o =>
    if to_size_t size ≤ o.max_message_size then
      let r := body size o
      if INT_MIN ≤ size * 2 ∧ size * 2 ≤ INT_MAX then
        let rest := size_sweep body fuel (size * 2) r.2
        (r.1 :: rest.1, rest.2.1, rest.2.2)
      else if to_size_t (wrap_int (size * 2)) ≤ o.max_message_size then
        ([r.1], r.2, Outcome.overflow)
      else ([r.1], r.2, Outcome.finished)
    else ([], o, Outcome.finished)

/-- A run of one engine. -/
structure EngineTrace where
  /-- Number of elements of `omb_lat_arr`, when it is allocated. -/
  lat_len : Option Nat
  /-- Calls before the size loop. -/
  before : List Ev
  /-- The size steps, in order. -/
  steps : List StepTrace
  /-- Calls after the size loop, when it is left through its test. -/
  after : List Ev
  outcome : Outcome
  /-- The global `options` when the run ends. -/
  final : Options
  deriving DecidableEq, Repr

/-- `run_put_with_fence(rank, type)`, started with the global `options` equal to `o`. -/
def run_put_with_fence (w : World) (fuel : Nat) (o : Options) (rank : Nat)
    (type : WINDOW) : EngineTrace :=
  let window_size := o.window_size
  let r := size_sweep (fence_step w rank type window_size) fuel o.min_message_size o
  { lat_len := if o.omb_tail_lat then some o.iterations else none
    before := (if o.omb_tail_lat then [Ev.malloc_lat o.iterations] else [])
      ++ [Ev.papi_init]
    steps := r.1
    after := if r.2.2 = Outcome.finished then
        [Ev.graph_combined_plot, Ev.graph_free, Ev.papi_free, Ev.free_lat]
      else []
    outcome := r.2.2
    final := r.2.1 }

/-- `run_put_with_pscw(rank, type)`, started with the global `options` equal to `o`. -/
def run_put_with_pscw (w : World) (fuel : Nat) (o : Options) (rank : Nat)
    (type : WINDOW) : EngineTrace :=
  let r := size_sweep (pscw_step w rank type o.window_size) fuel o.min_message_size o
  { lat_len := if o.omb_tail_lat then some o.iterations else none
    before := [Ev.comm_group]
      ++ (if o.omb_tail_lat then [Ev.malloc_lat o.iterations] else [])
      ++ [Ev.papi_init]
    steps := r.1
    after := if r.2.2 = Outcome.finished then
        [Ev.graph_combined_plot, Ev.graph_free, Ev.papi_free, Ev.free_lat,
         Ev.comm_group_free]
      else []
    outcome := r.2.2
    final := r.2.1 }

/-- How `main` terminates. -/
inductive Exit
  | EXIT_SUCCESS
  | EXIT_FAILURE
  deriving DecidableEq, Repr

/-- Calls made by `main`, in the order of the source. A call of an engine
carries the run of that engine. -/
inductive MainEv
  | process_options
  | populate_mpi_type_list
  | error_exit
  | init_accel
  | device_error
  | mpi_init
  | comm_rank
  | comm_size
  | dtype_warning
  | cuda_message
  | openacc_message
  | bad_usage_message
  | usage
  | version_message
  | sync_message
  | nprocs_message
  | finalize
  | print_header
  | call_fence (run : EngineTrace)
  | call_pscw (run : EngineTrace)
  | cleanup_accel
  | cleanup_error
  deriving DecidableEq, Repr

/-- What `main` receives: the result of `process_options` and the global
`options` it leaves, the results of the calls into the library, and the rank and
size of the communicator. -/
structure MainInput where
  po_ret : PO
  options : Options
  /-- `init_accel()` returns non-zero. -/
  init_accel_fails : Bool
  /-- `omb_mpi_init` returns `MPI_COMM_NULL`. -/
  comm_null : Bool
  rank : Nat
  nprocs : Nat
  /-- `options.omb_dtype_itr > 1 || mpi_type_list[0] != MPI_CHAR`. -/
  dtype_other : Bool
  /-- `cleanup_accel()` returns non-zero. -/
  cleanup_accel_fails : Bool

/-- The calls of `main` and its exit status; `exit` is `none` when the engine
does not return. -/
structure MainResult where
  trace : List MainEv
  exit : Option Exit
  deriving DecidableEq, Repr

/-- Modelled from the spec: the macro `OMB_ERROR_EXIT` is not part of the
translated files. Requesting validation "must fail immediately with a
configuration error": the macro reports the message and the process exits with
failure. -/
def OMB_ERROR_EXIT (trace : List MainEv) : MainResult :=
  { trace := trace ++ [MainEv.error_exit], exit := some Exit.EXIT_FAILURE }

/-- The first `switch (po_ret)`, executed on rank 0, without the case
`PO_VERSION_MESSAGE`, which leaves `main`. -/
def rank0_messages (po_ret : PO) : List MainEv :=
  match po_ret with
  | PO.PO_CUDA_NOT_AVAIL => [MainEv.cuda_message]
  | PO.PO_OPENACC_NOT_AVAIL => [MainEv.openacc_message]
  | PO.PO_BAD_USAGE => [MainEv.bad_usage_message, MainEv.usage]
  | PO.PO_HELP_MESSAGE => [MainEv.usage]
  | PO.PO_VERSION_MESSAGE => []
  | PO.PO_OKAY => []

/-- The part of `main` from the test of the process count on. -/
def main_run (w : World) (fuel : Nat) (inp : MainInput) (t4 : List MainEv) : MainResult :=
  if inp.nprocs ≠ 2 then
    { trace := t4 ++ (if inp.rank = 0 then [MainEv.nprocs_message] else [])
        ++ [MainEv.finalize]
      exit := some Exit.EXIT_FAILURE }
  else
    let run : EngineTrace := match inp.options.sync with
      | SYNC.FENCE => run_put_with_fence w fuel inp.options inp.rank inp.options.win
      | _ => run_put_with_pscw w fuel inp.options inp.rank inp.options.win
    let call : MainEv := match inp.options.sync with
      | SYNC.FENCE => MainEv.call_fence run
      | _ => MainEv.call_pscw run
    let t5 := t4 ++ [MainEv.print_header, call]
    if run.outcome ≠ Outcome.finished then { trace := t5, exit := none }
    else if inp.options.accel_none then
      { trace := t5 ++ [MainEv.finalize], exit := some Exit.EXIT_SUCCESS }
    else if inp.cleanup_accel_fails then
      { trace := t5 ++ [MainEv.finalize, MainEv.cleanup_accel, MainEv.cleanup_error]
        exit := some Exit.EXIT_FAILURE }
    else
      { trace := t5 ++ [MainEv.finalize, MainEv.cleanup_accel]
        exit := some Exit.EXIT_SUCCESS }

/-- `main` of `osu_put_bibw.c`. -/
def main (w : World) (fuel : Nat) (inp : MainInput) : MainResult :=
  let t0 := [MainEv.process_options, MainEv.populate_mpi_type_list]
  if inp.options.validate then OMB_ERROR_EXIT t0
  else
    let accel : Bool := decide (inp.po_ret = PO.PO_OKAY) && !inp.options.accel_none
    if accel && inp.init_accel_fails then
      { trace := t0 ++ [MainEv.init_accel, MainEv.device_error]
        exit := some Exit.EXIT_FAILURE }
    else
      let t1 := t0 ++ (if accel then [MainEv.init_accel] else []) ++ [MainEv.mpi_init]
      if inp.comm_null then OMB_ERROR_EXIT t1
      else
        let t2 := t1 ++ [MainEv.comm_rank, MainEv.comm_size]
          ++ (if inp.rank = 0 ∧ inp.dtype_other then [MainEv.dtype_warning] else [])
        if inp.rank = 0 ∧ inp.po_ret = PO.PO_VERSION_MESSAGE then
          { trace := t2 ++ [MainEv.version_message, MainEv.finalize]
            exit := some Exit.EXIT_SUCCESS }
        else
          let t3 := t2 ++ (if inp.rank = 0 then rank0_messages inp.po_ret else [])
          let bad_sync : Bool :=
            decide (inp.options.sync ≠ SYNC.PSCW) && decide (inp.options.sync ≠ SYNC.FENCE)
          let t4 := t3 ++ (if bad_sync ∧ inp.rank = 0 then [MainEv.sync_message] else [])
          let po_ret := if bad_sync then PO.PO_BAD_USAGE else inp.po_ret
          match po_ret with
          | PO.PO_CUDA_NOT_AVAIL | PO.PO_OPENACC_NOT_AVAIL | PO.PO_BAD_USAGE =>
            { trace := t4 ++ [MainEv.finalize], exit := some Exit.EXIT_FAILURE }
          | PO.PO_HELP_MESSAGE | PO.PO_VERSION_MESSAGE =>
            { trace := t4 ++ [MainEv.finalize], exit := some Exit.EXIT_SUCCESS }
          | PO.PO_OKAY => main_run w fuel inp t4

/-- The calls of `allocate_memory_one_sided` in a run of an engine. -/
def engine_allocations (run : EngineTrace) : List Ev :=
  (run.steps.map fun st => st.pre.filter fun e =>
    match e with
    | Ev.allocate _ _ => true
    | _ => false).flatten

/-- The run of the engine called at a position of the trace of `main`. -/
def engine_of (e : MainEv) : Option EngineTrace :=
  match e with
  | MainEv.call_fence run => some run
  | MainEv.call_pscw run => some run
  | _ => none

/-- The runs of the engines called in a trace of `main`. -/
def engine_calls (trace : List MainEv) : List EngineTrace :=
  trace.filterMap engine_of

/-- The calls of `allocate_memory_one_sided` in a trace of `main`: `main` makes
none itself, only the engines it calls do. -/
def allocations (trace : List MainEv) : List Ev :=
  ((engine_calls trace).map engine_allocations).flatten

/-- A position of the trace initialises the communicator. -/
def is_comm_init (e : MainEv) : Bool :=
  match e with
  | MainEv.mpi_init => true
  | _ => false

/-- The state of the global `options` at the head of a size step: still as
configured, or overwritten with the large counts by an earlier step, the latter
only when the size is above the threshold. -/
def CountsInv (w : World) (o0 : Options) (size : Int) (o : Options) : Prop :=
  1 ≤ size ∧ (o = o0 ∨ (size > w.LARGE_MESSAGE_SIZE
    ∧ o = { o0 with iterations := o0.iterations_large, skip := o0.skip_large }))

/-- All calls of a size step, in program order. -/
def step_events (st : StepTrace) : List Ev :=
  st.pre ++ st.rounds.flatten ++ st.post

/-- The argument of a call of `print_bibw`, seen through its output. -/
def print_of (e : Ev) : Option (Option ℚ) :=
  match e with
  | Ev.print out => some out
  | _ => none

/-- The calls of `print_bibw` made in a size step, in order. -/
def print_calls (st : StepTrace) : List (Option ℚ) :=
  (step_events st).filterMap print_of

/-- The run left the sweep through its test, visited exactly the given sizes in
the given order, and called `print_bibw` once in each size step. -/
def Visits (run : EngineTrace) (sizes : List Int) : Prop :=
  run.outcome = Outcome.finished ∧ run.steps.map StepTrace.size = sizes
    ∧ ∀ st ∈ run.steps, (print_calls st).length = 1

/-- Communication calls: synchronization calls and transfers. -/
def is_comm (e : Ev) : Bool :=
  match e with
  | Ev.barrier => true
  | Ev.fence => true
  | Ev.post _ => true
  | Ev.start _ => true
  | Ev.put _ _ _ _ _ => true
  | Ev.complete => true
  | Ev.wait => true
  | _ => false

/-- The peer of a rank in a two-process job, as the engines choose it: rank 0
targets rank 1, the other rank targets rank 0. -/
def peer_of (rank : Nat) : Nat :=
  if rank = 0 then 1 else 0

/-- The arguments of a call of `MPI_Put`: origin offset, origin count, target
rank, target displacement, target count. -/
def put_of (e : Ev) : Option (Int × Int × Nat × Int × Int) :=
  match e with
  | Ev.put a b c d f => some (a, b, c, d, f)
  | _ => none

/-- The calls of `MPI_Put` of a round, in order. -/
def put_calls (r : List Ev) : List (Int × Int × Nat × Int × Int) :=
  r.filterMap put_of

/-- The bytes moved by the puts of a round. -/
def bytes_moved (r : List Ev) : Int :=
  ((put_calls r).map fun p => p.2.1).sum

/-- The capacity requested by a call of `allocate_memory_one_sided`. -/
def capacity_of (e : Ev) : Option Int :=
  match e with
  | Ev.allocate _ capacity => some capacity
  | _ => none

/-- The capacities requested from `allocate_memory_one_sided` in a size step. -/
def capacity_requests (st : StepTrace) : List Int :=
  (step_events st).filterMap capacity_of

/-- A sample environment: the threshold 8192, a zero displacement and a unit
elapsed time. -/
def sample_world : World :=
  { LARGE_MESSAGE_SIZE := 8192, large_eq := rfl, disp_remote := fun _ => 0
    elapsed := fun _ => 1 }

/-- A sample configuration: sizes 1 to 4, 100 iterations after 10 warm-up
rounds, 64 puts per epoch. -/
def sample_options : Options :=
  { min_message_size := 1, max_message_size := 4, iterations := 100, skip := 10
    iterations_large := 20, skip_large := 2, window_size := 64
    omb_tail_lat := true, graph := false, validate := false, accel_none := true
    sync := SYNC.FENCE, win := WINDOW.WIN_ALLOCATE }

/-- A run of `main` on rank 0 of a two-process job where `process_options`
returned `PO_VERSION_MESSAGE` and left a synchronization mode other than `PSCW`
and `FENCE`. -/
def version_input : MainInput :=
  { po_ret := PO.PO_VERSION_MESSAGE
    options := { sample_options with sync := SYNC.OTHER 0 }
    init_accel_fails := false, comm_null := false, rank := 0, nprocs := 2
    dtype_other := false, cleanup_accel_fails := false }

/-- A run of `main` on rank 1 of a three-process job with the sample
configuration. -/
def three_process_input : MainInput :=
  { po_ret := PO.PO_OKAY, options := sample_options
    init_accel_fails := false, comm_null := false, rank := 1, nprocs := 3
    dtype_other := false, cleanup_accel_fails := false }

/-- A run of `main` on rank 0 of a two-process job with the sample configuration
and validation requested. -/
def validate_input : MainInput :=
  { po_ret := PO.PO_OKAY, options := { sample_options with validate := true }
    init_accel_fails := false, comm_null := false, rank := 0, nprocs := 2
    dtype_other := false, cleanup_accel_fails := false }

/-- The first size step of the post/start/complete/wait engine on rank 0 under
the sample configuration. -/
def sample_pscw_step : StepTrace :=
  pscw_body sample_world 0 WINDOW.WIN_ALLOCATE 64 1 sample_options

/-- The first round of `sample_pscw_step`. -/
def sample_pscw_round : List Ev :=
  pscw_round sample_options 0 64 1 0 0

/-- The sample configuration with the maximum size `2^30`. -/
def wide_options : Options :=
  { sample_options with max_message_size := 1073741824 }

/-- A call of `allocate_memory_one_sided`: the window of a size step is created. -/
def is_alloc (e : Ev) : Bool :=
  match e with
  | Ev.allocate _ _ => true
  | _ => false

/-- A call of `MPI_Group_incl`: the single-peer group of a size step is built. -/
def is_group_incl (e : Ev) : Bool :=
  match e with
  | Ev.group_incl _ => true
  | _ => false

/-- The call `MPI_Group_free(&group)` on the single-peer group. -/
def is_group_free (e : Ev) : Bool :=
  match e with
  | Ev.group_free => true
  | _ => false

/-- A call of `free_memory_one_sided`: the window of a size step is freed. -/
def is_free_memory (e : Ev) : Bool :=
  match e with
  | Ev.free_memory _ => true
  | _ => false

/-- A call that creates or frees a window or a single-peer group. -/
def is_resource (e : Ev) : Bool :=
  is_alloc e || is_group_incl e || is_group_free e || is_free_memory e

/-- The windows and the single-peer groups created and not yet freed. The
counters are integers, so that a free without a creation would show. -/
structure Live where
  windows : Int
  groups : Int
  deriving DecidableEq, Repr

/-- The effect of one call on the live windows and groups. -/
def live_step (l : Live) (e : Ev) : Live :=
  match e with
  | Ev.allocate _ _ => { l with windows := l.windows + 1 }
  | Ev.free_memory _ => { l with windows := l.windows - 1 }
  | Ev.group_incl _ => { l with groups := l.groups + 1 }
  | Ev.group_free => { l with groups := l.groups - 1 }
  | _ => l

/-- The live windows and groups after a sequence of calls. -/
def live_after (l : Live) (evs : List Ev) : Live :=
  evs.foldl live_step l

/-- The calls of a sequence of size steps, in program order. -/
def steps_events (l : List StepTrace) : List Ev :=
  (l.map step_events).flatten

/-- All calls of a run of an engine, in program order. -/
def run_events (run : EngineTrace) : List Ev :=
  run.before ++ steps_events run.steps ++ run.after

end OsuPutBibw

namespace OsuAccLatency

/-- Communication and timing calls of one iteration of the loops of
`osu_acc_latency.c`. -/
inductive Call
  | start (peer : Nat)
  | wtime
  | accumulate (target : Nat) (count : Nat)
  | complete
  | post (peer : Nat)
  | wait
  deriving DecidableEq, Repr

def MAX_SIZE : Nat := 4194304

def sizeof_int : Nat := 4

def skip_large : Nat := 10

def loop_large : Nat := 100

def large_message_size : Nat := 8192

/-- Iteration `i` of the loop of rank 0 (lines 119 to 131), or of the loop of the
other rank (lines 141 to 148). -/
def pscw_iteration (rank : Nat) (skip : Nat) (count : Nat) (i : Nat) : List Call :=
  if rank = 0 then
    [Call.start 1] ++ (if i = skip then [Call.wtime] else [])
      ++ [Call.accumulate 1 count, Call.complete, Call.post 1, Call.wait]
  else
    [Call.post 0, Call.wait, Call.start 0, Call.accumulate 0 count, Call.complete]

/-- One iteration of the loop over `count`. -/
structure Step where
  count : Nat
  size : Nat
  skip : Nat
  loop : Nat
  iterations : List (List Call)
  deriving DecidableEq, Repr

/-- The increment `(count <<= 1) || (count += 1)`. -/
def next_count (count : Nat) : Nat :=
  if count * 2 ≠ 0 then count * 2 else count * 2 + 1

/-- The loop `for (count = 0; count <= MAX_SIZE / sizeof(int); ...)` with the
globals `skip` and `loop` as state; `none` when the fuel does not reach the end
of the loop. -/
def count_loop (rank : Nat) : Nat → Nat → Nat → Nat → Option (List Step)
  | 0, _, _, _ => none
  | fuel + 1, count, skip, loop =>
    if count ≤ MAX_SIZE / sizeof_int then
      let size := count * sizeof_int
      let loop1 := if size > large_message_size then loop_large else loop
      let skip1 := if size > large_message_size then skip_large else skip
      let st : Step :=
        { count := count, size := size, skip := skip1, loop := loop1
          iterations := (List.range (skip1 + loop1)).map (pscw_iteration rank skip1 count) }
      (count_loop rank fuel (next_count count) skip1 loop1).map fun rest => st :: rest
    else some []

/-- The size steps of `main` of `osu_acc_latency.c` on a rank of a two-process
job, from the initial values `skip = 100` and `loop = 1000` of the globals. -/
def steps (rank : Nat) (fuel : Nat) : Option (List Step) :=
  count_loop rank fuel 0 100 1000

/-- Position of the first call satisfying `p`, or the length of the list. -/
def first_index (p : Call → Bool) (l : List Call) : Nat :=
  l.findIdx p

def is_post (c : Call) : Bool :=
  match c with
  | Call.post _ => true
  | _ => false

def is_start (c : Call) : Bool :=
  match c with
  | Call.start _ => true
  | _ => false

def is_wait (c : Call) : Bool :=
  match c with
  | Call.wait => true
  | _ => false

def is_accumulate (c : Call) : Bool :=
  match c with
  | Call.accumulate _ _ => true
  | _ => false

def is_complete (c : Call) : Bool :=
  match c with
  | Call.complete => true
  | _ => false

/-- The call `MPI_Wtime`, the only call of an iteration that is not a
communication call. -/
def is_timing (c : Call) : Bool :=
  match c with
  | Call.wtime => true
  | _ => false

/-- The communication calls of an iteration, in order. -/
def comm_calls (l : List Call) : List Call :=
  l.filter fun c => !is_timing c

/-- A call satisfying `p` is issued, and before any call satisfying `q`. -/
def issued_before (p q : Call → Bool) (l : List Call) : Prop :=
  first_index p l < first_index q l

instance (p q : Call → Bool) (l : List Call) : Decidable (issued_before p q l) := by
  unfold issued_before; infer_instance

/-- The first size step on a rank: `count = 0`, under the initial `skip = 100`
and `loop = 1000`. -/
def first_step (rank : Nat) : Step :=
  { count := 0, size := 0, skip := 100, loop := 1000
    iterations := (List.range (100 + 1000)).map (pscw_iteration rank 100 0) }

/-- The first iteration of the first size step on a rank. -/
def first_iteration (rank : Nat) : List Call :=
  pscw_iteration rank 100 0 0

/-- The size steps of rank 1. -/
def rank1_steps : List Step :=
  (steps 1 23).getD []

/-- The size steps of rank 0. -/
def rank0_steps : List Step :=
  (steps 0 23).getD []

end OsuAccLatency

namespace OsuPutBibw

/-! ## The size sweep -/

/-- A property of the steps of a sweep follows from an invariant of the loop:
the invariant holds on entry, every loop body run under it produces a step with
the property, and doubling the size restores it. -/
theorem size_sweep_forall (body : Int → Options → StepTrace × Options)
    (I : Int → Options → Prop) (P : StepTrace → Prop)
    (hstep : ∀ size o, I size o → P (body size o).1 ∧ I (size * 2) (body size o).2) :
    ∀ (fuel : Nat) (size : Int) (o : Options), I size o →
      ∀ st ∈ (size_sweep body fuel size o).1, P st := by
  intro fuel
  induction fuel with
  | zero => intro size o _ st hst; simp [size_sweep] at hst
  | succ n ih =>
    intro size o hI st hst
    have hb := hstep size o hI
    unfold size_sweep at hst
    split_ifs at hst with h1 h2 h3
    · simp only [List.mem_cons] at hst
      rcases hst with rfl | hst
      · exact hb.1
      · exact ih (size * 2) _ hb.2 st hst
    · simp only [List.mem_singleton] at hst
      subst hst
      exact hb.1
    · simp only [List.mem_singleton] at hst
      subst hst
      exact hb.1
    · simp at hst

theorem countsInv_init (w : World) (o0 : Options) (h : 1 ≤ o0.min_message_size) :
    CountsInv w o0 o0.min_message_size o0 :=
  ⟨h, Or.inl rfl⟩

/-- Under the invariant the threshold test leaves the same options as it would
on the configured options, and doubling the size restores the invariant. -/
theorem countsInv_switch (w : World) (o0 : Options) (size : Int) (o : Options)
    (h : CountsInv w o0 size o) :
    switch_counts w size o = switch_counts w size o0
      ∧ CountsInv w o0 (size * 2) (switch_counts w size o) := by
  obtain ⟨h1, hc⟩ := h
  rcases hc with rfl | ⟨hgt, rfl⟩
  · refine ⟨rfl, by omega, ?_⟩
    unfold switch_counts
    by_cases hL : size > w.LARGE_MESSAGE_SIZE
    · rw [if_pos hL]
      exact Or.inr ⟨by omega, rfl⟩
    · rw [if_neg hL]
      exact Or.inl rfl
  · have e : switch_counts w size
        { o0 with iterations := o0.iterations_large, skip := o0.skip_large }
        = { o0 with iterations := o0.iterations_large, skip := o0.skip_large } := by
      simp [switch_counts, hgt]
    have e0 : switch_counts w size o0
        = { o0 with iterations := o0.iterations_large, skip := o0.skip_large } := by
      simp [switch_counts, hgt]
    rw [e, e0]
    exact ⟨rfl, by omega, Or.inr ⟨by omega, rfl⟩⟩

/-- Every step of a sweep started from the configured options with a minimum
size of at least one is the step that the loop body builds, at the size of the
step, from the options that the threshold test leaves on the configured
options: the overwrite in place of the counts is not visible. -/
theorem sweep_steps (w : World) (o0 : Options) (mk : Int → Options → StepTrace)
    (hsize : ∀ size o, (mk size o).size = size)
    (hmin : 1 ≤ o0.min_message_size) (fuel : Nat) :
    ∀ st ∈ (size_sweep (fun size o => (mk size (switch_counts w size o),
        switch_counts w size o)) fuel o0.min_message_size o0).1,
      st = mk st.size (switch_counts w st.size o0) := by
  refine size_sweep_forall _ (CountsInv w o0)
    (fun st => st = mk st.size (switch_counts w st.size o0)) ?_ fuel _ _
    (countsInv_init w o0 hmin)
  intro size o hI
  obtain ⟨h1, h2⟩ := countsInv_switch w o0 size o hI
  refine ⟨?_, h2⟩
  simp only [hsize, h1]

theorem fence_sweep_steps (w : World) (o : Options) (rank : Nat) (type : WINDOW)
    (hmin : 1 ≤ o.min_message_size) (fuel : Nat) :
    ∀ st ∈ (run_put_with_fence w fuel o rank type).steps,
      st = fence_body w rank type o.window_size st.size (switch_counts w st.size o) :=
  sweep_steps w o (fence_body w rank type o.window_size) (fun _ _ => rfl) hmin fuel

theorem pscw_sweep_steps (w : World) (o : Options) (rank : Nat) (type : WINDOW)
    (hmin : 1 ≤ o.min_message_size) (fuel : Nat) :
    ∀ st ∈ (run_put_with_pscw w fuel o rank type).steps,
      st = pscw_body w rank type o.window_size st.size (switch_counts w st.size o) :=
  sweep_steps w o (pscw_body w rank type o.window_size) (fun _ _ => rfl) hmin fuel

/-! ## Sample steps -/

theorem sample_pscw_step_mem :
    sample_pscw_step
      ∈ (run_put_with_pscw sample_world 4 sample_options 0 WINDOW.WIN_ALLOCATE).steps :=
  List.mem_cons_self _ _

theorem sample_pscw_round_mem : sample_pscw_round ∈ sample_pscw_step.rounds :=
  List.mem_map.2 ⟨0, by simp [sample_options], rfl⟩

theorem to_size_t_of_int (x : Int) (h0 : 0 ≤ x) (h1 : x ≤ INT_MAX) : to_size_t x = x := by
  unfold to_size_t
  unfold INT_MAX at h1
  omega

theorem wrap_int_of_fits (x : Int) (h0 : INT_MIN ≤ x) (h1 : x ≤ INT_MAX) :
    wrap_int x = x := by
  unfold wrap_int
  unfold INT_MIN at h0
  unfold INT_MAX at h1
  omega

/-- The sizes visited by a sweep that starts at a size of at least one, under a
maximum of at most `2^30`: the doublings of the start up to the maximum, and
the loop is left through its test, also when the last doubling wraps around. -/
theorem size_sweep_sizes (body : Int → Options → StepTrace × Options) (M : Int)
    (hsize : ∀ size o, (body size o).1.size = size)
    (hmax : ∀ size o, (body size o).2.max_message_size = o.max_message_size)
    (hM30 : M ≤ 1073741824) :
    ∀ (K fuel : Nat) (size : Int) (o : Options), o.max_message_size = M → 1 ≤ size →
      size ≤ INT_MAX → (∀ k, k < K → size * 2 ^ k ≤ M) →
      M < size * 2 ^ K → K < fuel →
      (size_sweep body fuel size o).2.2 = Outcome.finished
        ∧ (size_sweep body fuel size o).1.map StepTrace.size
            = (List.range K).map (fun k => size * 2 ^ k) := by
  intro K
  induction K with
  | zero =>
    intro fuel size o hM h1 hint _ hlt hf
    obtain ⟨f, rfl⟩ : ∃ f, fuel = f + 1 := ⟨fuel - 1, by omega⟩
    have : ¬ to_size_t size ≤ o.max_message_size := by
      rw [hM, to_size_t_of_int size (by omega) hint]
      simpa using hlt
    simp [size_sweep, this]
  | succ K ih =>
    intro fuel size o hM h1 hint hk hlt hf
    obtain ⟨f, rfl⟩ : ∃ f, fuel = f + 1 := ⟨fuel - 1, by omega⟩
    have h0 := hk 0 (Nat.succ_pos K)
    simp only [pow_zero, mul_one] at h0
    have hle : to_size_t size ≤ o.max_message_size := by
      rw [hM, to_size_t_of_int size (by omega) hint]
      exact h0
    by_cases hfit : INT_MIN ≤ size * 2 ∧ size * 2 ≤ INT_MAX
    · have hrec := ih f (size * 2) (body size o).2 (by rw [hmax, hM]) (by omega) hfit.2
        (fun k hk1 => by
          have := hk (k + 1) (by omega)
          rw [pow_succ] at this
          rw [mul_assoc, mul_comm 2 (2 ^ k)]
          exact this)
        (by rw [pow_succ] at hlt; rw [mul_assoc, mul_comm 2 (2 ^ K)]; exact hlt)
        (by omega)
      unfold size_sweep
      simp only [hle, hfit, if_true, and_self]
      refine ⟨hrec.1, ?_⟩
      simp only [List.map_cons, hrec.2, hsize, List.range_succ_eq_map, List.map_map]
      congr 1
      · simp
      · apply List.map_congr_left
        intro k _
        simp only [Function.comp, pow_succ]
        ring
    · have hs : size = 1073741824 := by
        unfold INT_MIN INT_MAX at hfit
        omega
      have hK : K = 0 := by
        by_contra hne
        have := hk 1 (by omega)
        rw [pow_one] at this
        omega
      subst hK
      have hw : ¬ to_size_t (wrap_int (size * 2)) ≤ o.max_message_size := by
        rw [hM, hs]
        unfold to_size_t wrap_int
        omega
      unfold size_sweep
      simp only [hle, hfit, hw, if_true, if_false]
      simp [hsize, List.range_succ]

/-- The number of doublings of a start of at least one that stay within a
maximum. -/
theorem exists_step_count (m M : Int) (h1 : 1 ≤ m) :
    ∃ K : Nat, (∀ k : Nat, k < K ↔ m * 2 ^ k ≤ M) ∧ M < m * 2 ^ K := by
  have hex : ∃ k : Nat, M < m * 2 ^ k := by
    refine ⟨M.toNat, ?_⟩
    have h2 : M.toNat < 2 ^ M.toNat := Nat.lt_two_pow M.toNat
    have h3 : ((M.toNat : Int)) < (2 : Int) ^ M.toNat := by exact_mod_cast h2
    have h4 : M ≤ (M.toNat : Int) := Int.self_le_toNat M
    have h5 : (0 : Int) ≤ 2 ^ M.toNat := by positivity
    nlinarith
  have hmono : ∀ a b : Nat, a ≤ b → m * 2 ^ a ≤ m * 2 ^ b := by
    intro a b hab
    apply mul_le_mul_of_nonneg_left _ (by omega)
    exact pow_le_pow_right₀ (by norm_num) hab
  classical
  refine ⟨Nat.find hex, fun k => ⟨fun hk => ?_, fun hk => ?_⟩, Nat.find_spec hex⟩
  · exact not_lt.mp (Nat.find_min hex hk)
  · by_contra hcon
    have := hmono _ _ (not_lt.mp hcon)
    have := Nat.find_spec hex
    omega

theorem closing_time_filterMap {α : Type} (f : Ev → Option α) (h : f Ev.wtime = none)
    (rank : Nat) : (closing_time rank).filterMap f = [] := by
  unfold closing_time
  split_ifs <;> simp [h]

theorem switch_counts_max (w : World) (size : Int) (o : Options) :
    (switch_counts w size o).max_message_size = o.max_message_size := by
  unfold switch_counts; split_ifs <;> rfl

theorem put_batch_print (size : Int) (n target : Nat) (disp : Int) :
    (put_batch size n target disp).filterMap print_of = [] := by
  simp [put_batch, List.filterMap_map, print_of, Function.comp_def]

theorem record_round_print (o : Options) (i : Nat) :
    (record_round o i).filterMap print_of = [] := by
  unfold record_round
  split_ifs <;> simp [print_of]

theorem fence_round_print (o : Options) (rank n : Nat) (size disp : Int) (i : Nat) :
    (fence_round o rank n size disp i).filterMap print_of = [] := by
  unfold fence_round
  split_ifs <;>
    simp [List.filterMap_append, put_batch_print, record_round_print, print_of]

theorem pscw_round_print (o : Options) (rank n : Nat) (size disp : Int) (i : Nat) :
    (pscw_round o rank n size disp i).filterMap print_of = [] := by
  unfold pscw_round
  split_ifs <;>
    simp [List.filterMap_append, put_batch_print, record_round_print, print_of]

theorem flatten_map_print (f : Nat → List Ev) (h : ∀ i, (f i).filterMap print_of = [])
    (l : List Nat) : ((l.map f).flatten).filterMap print_of = [] := by
  induction l with
  | nil => rfl
  | cons a l ih => simp [List.filterMap_append, h a, ih]

theorem report_print (o : Options) (rank : Nat) (size : Int) (t : ℚ) :
    (report o rank size t).filterMap print_of = [print_bibw o rank size t] := by
  unfold report
  split_ifs <;> simp [List.filterMap_append, print_of]

/-- A size step of the fence engine calls `print_bibw` once, with the counts of
the step. -/
theorem fence_step_print (w : World) (rank : Nat) (type : WINDOW) (n : Nat) (size : Int)
    (o : Options) :
    print_calls (fence_body w rank type n size o)
      = [print_bibw o rank size (elapsed_of w rank size)] := by
  simp only [print_calls, step_events, fence_body, List.filterMap_append,
    flatten_map_print _ (fence_round_print _ _ _ _ _), report_print,
    closing_time_filterMap print_of rfl]
  simp [print_of]

/-- A size step of the other engine calls `print_bibw` once, with the counts of
the step. -/
theorem pscw_step_print (w : World) (rank : Nat) (type : WINDOW) (n : Nat) (size : Int)
    (o : Options) :
    print_calls (pscw_body w rank type n size o)
      = [print_bibw o rank size (elapsed_of w rank size)] := by
  simp only [print_calls, step_events, pscw_body, List.filterMap_append,
    flatten_map_print _ (pscw_round_print _ _ _ _ _), report_print,
    closing_time_filterMap print_of rfl]
  simp [print_of]

/-- A sweep from a minimum of at least one under a maximum of at most `2^30` is
left through its test after the doublings of the minimum that do not exceed the
maximum, with one call of `print_bibw` in each step. -/
theorem sweep_visits (w : World) (o : Options) (mk : Int → Options → StepTrace)
    (hsize : ∀ size o1, (mk size o1).size = size)
    (hprint : ∀ size o1, (print_calls (mk size o1)).length = 1)
    (h1 : 1 ≤ o.min_message_size) (h2 : o.min_message_size ≤ o.max_message_size)
    (h3 : o.max_message_size ≤ 1073741824) (K : Nat)
    (hK : ∀ k, k < K → o.min_message_size * 2 ^ k ≤ o.max_message_size)
    (hlt : o.max_message_size < o.min_message_size * 2 ^ K) (fuel : Nat) (hf : K < fuel) :
    (size_sweep (fun size o1 => (mk size (switch_counts w size o1),
        switch_counts w size o1)) fuel o.min_message_size o).2.2 = Outcome.finished
      ∧ (size_sweep (fun size o1 => (mk size (switch_counts w size o1),
          switch_counts w size o1)) fuel o.min_message_size o).1.map StepTrace.size
        = (List.range K).map (fun k => o.min_message_size * 2 ^ k)
      ∧ ∀ st ∈ (size_sweep (fun size o1 => (mk size (switch_counts w size o1),
          switch_counts w size o1)) fuel o.min_message_size o).1,
        (print_calls st).length = 1 := by
  have hs := size_sweep_sizes (fun size o1 => (mk size (switch_counts w size o1),
      switch_counts w size o1)) o.max_message_size (fun size o1 => hsize size _)
    (fun size o1 => switch_counts_max w size o1) h3 K fuel o.min_message_size o rfl h1
    (by unfold INT_MAX; omega) hK hlt hf
  refine ⟨hs.1, hs.2, ?_⟩
  exact size_sweep_forall _ (fun _ _ => True) (fun st => (print_calls st).length = 1)
    (fun size o1 _ => ⟨hprint size _, trivial⟩) fuel _ _ trivial

/-- The doublings of one that do not exceed four are three. -/
theorem step_count_one_four (K : Nat) (hK : ∀ k : Nat, k < K ↔ (1 : Int) * 2 ^ k ≤ 4) :
    K = 3 := by
  have h2 := (hK 2).2 (by norm_num)
  have h3 : ¬ 3 < K := fun h => by
    have := (hK 3).1 h
    norm_num at this
  omega

/-- The doublings of one that do not exceed `2^30` are 31. -/
theorem step_count_one_two_pow_30 (K : Nat)
    (hK : ∀ k : Nat, k < K ↔ (1 : Int) * 2 ^ k ≤ 1073741824) : K = 31 := by
  have h2 := (hK 30).2 (by norm_num)
  have h3 : ¬ 31 < K := fun h => by
    have := (hK 31).1 h
    norm_num at this
  omega

/-- C2. For every `1 <= min_message_size <= max_message_size <= 2^30` the size
sweep of `run_put_with_fence` and of `run_put_with_pscw` is left through its
test and visits exactly the sizes `min * 2^k` with `min * 2^k <= max`, in
increasing order, calling `print_bibw` once per visited size. In particular,
for `min = 1`, `max = 4`, `iterations = 100`, `skip = 10`, `window_size = 64` it
visits `[1, 2, 4]`, runs 110 rounds for each, and makes one call of
`print_bibw` per size, whose value on rank 0 is computed with `n = 100`. -/
theorem sweep_visits_doublings (w : World) (o : Options) (rank : Nat) (type : WINDOW)
    (h1 : 1 ≤ o.min_message_size) (h2 : o.min_message_size ≤ o.max_message_size)
    (h3 : o.max_message_size ≤ 1073741824) :
    (∃ K : Nat, (∀ k : Nat, k < K ↔ o.min_message_size * 2 ^ k ≤ o.max_message_size)
      ∧ ∀ fuel : Nat, K < fuel →
        Visits (run_put_with_fence w fuel o rank type)
            ((List.range K).map fun k => o.min_message_size * 2 ^ k)
          ∧ Visits (run_put_with_pscw w fuel o rank type)
            ((List.range K).map fun k => o.min_message_size * 2 ^ k))
      ∧ (o.min_message_size = 1 → o.max_message_size = 4 → o.iterations = 100 →
          o.skip = 10 → o.window_size = 64 →
          ∀ fuel : Nat, 3 < fuel →
            (Visits (run_put_with_fence w fuel o rank type) [1, 2, 4]
              ∧ ∀ st ∈ (run_put_with_fence w fuel o rank type).steps,
                st.rounds.length = 110
                  ∧ print_calls st = [if rank = 0 then
                      some ((((st.size : ℚ) / 1000000 * 100 * 64) / w.elapsed st.size) * 2)
                    else none])
            ∧ (Visits (run_put_with_pscw w fuel o rank type) [1, 2, 4]
              ∧ ∀ st ∈ (run_put_with_pscw w fuel o rank type).steps,
                st.rounds.length = 110
                  ∧ print_calls st = [if rank = 0 then
                      some ((((st.size : ℚ) / 1000000 * 100 * 64) / w.elapsed st.size) * 2)
                    else none])) := by
  obtain ⟨K, hK, hlt⟩ := exists_step_count o.min_message_size o.max_message_size h1
  have hK2 : ∀ k, k < K → o.min_message_size * 2 ^ k ≤ o.max_message_size :=
    fun k hk => (hK k).1 hk
  have hf : ∀ fuel : Nat, K < fuel →
      Visits (run_put_with_fence w fuel o rank type)
          ((List.range K).map fun k => o.min_message_size * 2 ^ k)
        ∧ Visits (run_put_with_pscw w fuel o rank type)
          ((List.range K).map fun k => o.min_message_size * 2 ^ k) := by
    intro fuel hfuel
    exact ⟨sweep_visits w o (fence_body w rank type o.window_size) (fun _ _ => rfl)
        (fun size o1 => by rw [fence_step_print]; rfl) h1 h2 h3 K hK2 hlt fuel hfuel,
      sweep_visits w o (pscw_body w rank type o.window_size) (fun _ _ => rfl)
        (fun size o1 => by rw [pscw_step_print]; rfl) h1 h2 h3 K hK2 hlt fuel hfuel⟩
  refine ⟨⟨K, hK, hf⟩, ?_⟩
  intro hmin hmax hit hsk hws fuel hfuel
  have hK3 : K = 3 := step_count_one_four K (by rw [hmin, hmax] at hK; exact hK)
  subst hK3
  have hv := hf fuel hfuel
  have hlist : ((List.range 3).map fun k => o.min_message_size * 2 ^ k) = [1, 2, 4] := by
    rw [hmin]; decide
  rw [hlist] at hv
  have hL := w.large_eq
  have hsmall : ∀ (l : List StepTrace) (st : StepTrace),
      l.map StepTrace.size = [1, 2, 4] → st ∈ l → ¬ st.size > w.LARGE_MESSAGE_SIZE := by
    intro l st hl hst
    have : st.size ∈ l.map StepTrace.size := List.mem_map_of_mem _ hst
    rw [hl] at this
    simp only [List.mem_cons, List.mem_singleton, List.not_mem_nil, or_false] at this
    omega
  refine ⟨⟨hv.1, ?_⟩, ⟨hv.2, ?_⟩⟩
  · intro st hst
    have hs := hsmall _ st hv.1.2.1 hst
    have e := fence_sweep_steps w o rank type h1 fuel st hst
    have eo : switch_counts w st.size o = o := by simp [switch_counts, hs]
    rw [eo] at e
    constructor
    · rw [e]; simp [fence_body, hit, hsk]
    · rw [e, fence_step_print]
      by_cases hr : rank = 0
      · simp [print_bibw, elapsed_of, hr, hit, hws, fence_body]
      · simp [print_bibw, hr]
  · intro st hst
    have hs := hsmall _ st hv.2.2.1 hst
    have e := pscw_sweep_steps w o rank type h1 fuel st hst
    have eo : switch_counts w st.size o = o := by simp [switch_counts, hs]
    rw [eo] at e
    constructor
    · rw [e]; simp [pscw_body, hit, hsk]
    · rw [e, pscw_step_print]
      by_cases hr : rank = 0
      · simp [print_bibw, elapsed_of, hr, hit, hws, pscw_body]
      · simp [print_bibw, hr]

/-- C2 under the sample configuration, where both engines visit the sizes 1, 2,
4, and under the same configuration with the maximum `2^30`, where the fence
engine visits the 31 sizes `1, 2, .., 2^30` and leaves the loop through its
test. -/
theorem sweep_visits_doublings_witness :
    (1 ≤ sample_options.min_message_size
        ∧ sample_options.min_message_size ≤ sample_options.max_message_size
        ∧ sample_options.max_message_size ≤ 1073741824
        ∧ 1 ≤ wide_options.min_message_size
        ∧ wide_options.min_message_size ≤ wide_options.max_message_size
        ∧ wide_options.max_message_size ≤ 1073741824)
      ∧ Visits (run_put_with_fence sample_world 4 sample_options 0 WINDOW.WIN_ALLOCATE)
          [1, 2, 4]
      ∧ Visits (run_put_with_pscw sample_world 4 sample_options 1 WINDOW.WIN_ALLOCATE)
          [1, 2, 4]
      ∧ Visits (run_put_with_fence sample_world 32 wide_options 0 WINDOW.WIN_ALLOCATE)
          ((List.range 31).map fun k => wide_options.min_message_size * 2 ^ k) := by
  refine ⟨by decide, ?_, ?_, ?_⟩
  · exact (((sweep_visits_doublings sample_world sample_options 0 WINDOW.WIN_ALLOCATE
      (by decide) (by decide) (by decide)).2 rfl rfl rfl rfl rfl 4 (by decide)).1).1
  · exact (((sweep_visits_doublings sample_world sample_options 1 WINDOW.WIN_ALLOCATE
      (by decide) (by decide) (by decide)).2 rfl rfl rfl rfl rfl 4 (by decide)).2).1
  · obtain ⟨K, hK, hv⟩ := (sweep_visits_doublings sample_world wide_options 0
      WINDOW.WIN_ALLOCATE (by decide) (by decide) (by decide)).1
    have hK31 : K = 31 := step_count_one_two_pow_30 K hK
    subst hK31
    exact (hv 32 (by decide)).1

/-! ## The reported bandwidth -/

theorem filterMap_rounds {α : Type} (f : Ev → Option α) (g : Nat → List Ev) (l : List Nat) :
    ((l.map g).flatten).filterMap f = (l.map fun i => (g i).filterMap f).flatten := by
  induction l with
  | nil => rfl
  | cons a l ih => simp [List.filterMap_append, ih]

theorem flatten_map_nil {α : Type} (h : Nat → List α) (l : List Nat)
    (hl : ∀ i ∈ l, h i = []) : (l.map h).flatten = [] := by
  induction l with
  | nil => rfl
  | cons a l ih =>
    simp only [List.map_cons, List.flatten_cons, hl a (List.mem_cons_self a l),
      List.nil_append]
    exact ih fun i hi => hl i (List.mem_cons_of_mem a hi)

/-- C5. In `main`, for every rank and every synchronization mode, if option
processing returned `PO_OKAY`, validation was not requested, the accelerator
initialisation did not fail, and the process count is not 2, then `main`
terminates with `EXIT_FAILURE`, and its trace contains no call of an engine and
no call of `allocate_memory_one_sided`. -/
theorem wrong_process_count_fails (w : World) (fuel : Nat) (inp : MainInput)
    (hpo : inp.po_ret = PO.PO_OKAY) (hval : inp.options.validate = false)
    (hacc : inp.init_accel_fails = false) (hn : inp.nprocs ≠ 2) :
    (main w fuel inp).exit = some Exit.EXIT_FAILURE
      ∧ engine_calls (main w fuel inp).trace = []
      ∧ allocations (main w fuel inp).trace = [] := by
  have key : (main w fuel inp).exit = some Exit.EXIT_FAILURE
      ∧ engine_calls (main w fuel inp).trace = [] := by
    unfold main main_run
    cases hcn : inp.comm_null <;> cases hs : inp.options.sync <;>
      simp only [hval, hpo, hacc, hn, OMB_ERROR_EXIT, rank0_messages, Bool.and_false,
        Bool.false_eq_true, if_false, ne_eq, not_false_eq_true, if_true, reduceCtorEq,
        decide_True, decide_False, Bool.and_true, Bool.true_and, and_false, and_true,
        decide_not, Bool.not_true, Bool.not_false, false_and] <;>
      split_ifs <;> simp [engine_calls, engine_of, List.filterMap_append]
  exact ⟨key.1, key.2, by simp [allocations, key.2]⟩

/-- C5 on rank 1 of a three-process job. -/
theorem wrong_process_count_fails_witness :
    (three_process_input.po_ret = PO.PO_OKAY
        ∧ three_process_input.options.validate = false
        ∧ three_process_input.init_accel_fails = false
        ∧ three_process_input.nprocs ≠ 2)
      ∧ (main sample_world 4 three_process_input).exit = some Exit.EXIT_FAILURE
      ∧ engine_calls (main sample_world 4 three_process_input).trace = []
      ∧ allocations (main sample_world 4 three_process_input).trace = [] :=
  ⟨⟨rfl, rfl, rfl, by decide⟩,
    wrong_process_count_fails sample_world 4 three_process_input rfl rfl rfl (by decide)⟩

/-- C6. In `main`, for every rank, process count, synchronization mode and
result of option processing, if `options.validate` is set then `main` terminates
with a failure status right after option processing: its trace is the call of
`process_options`, the call of `omb_populate_mpi_type_list` and the error exit,
so it contains no initialisation of the communicator and no call of an engine,
hence no window allocation, no synchronization call and no transfer. -/
theorem validation_rejected (w : World) (fuel : Nat) (inp : MainInput)
    (hval : inp.options.validate = true) :
    (main w fuel inp).exit = some Exit.EXIT_FAILURE
      ∧ (main w fuel inp).trace
          = [MainEv.process_options, MainEv.populate_mpi_type_list, MainEv.error_exit]
      ∧ (main w fuel inp).trace.any is_comm_init = false
      ∧ engine_calls (main w fuel inp).trace = []
      ∧ allocations (main w fuel inp).trace = [] := by
  have e : main w fuel inp
      = OMB_ERROR_EXIT [MainEv.process_options, MainEv.populate_mpi_type_list] := by
    unfold main
    simp only [hval, if_true]
  rw [e]
  exact ⟨rfl, rfl, rfl, rfl, rfl⟩

/-- C6 on rank 0 of a two-process job with validation requested. -/
theorem validation_rejected_witness :
    validate_input.options.validate = true
      ∧ (main sample_world 4 validate_input).exit = some Exit.EXIT_FAILURE
      ∧ (main sample_world 4 validate_input).trace
          = [MainEv.process_options, MainEv.populate_mpi_type_list, MainEv.error_exit]
      ∧ (main sample_world 4 validate_input).trace.any is_comm_init = false
      ∧ engine_calls (main sample_world 4 validate_input).trace = []
      ∧ allocations (main sample_world 4 validate_input).trace = [] :=
  ⟨rfl, validation_rejected sample_world 4 validate_input rfl⟩

/-- C7, as amended. In `main`, for every rank, process count and result of
option processing, with validation not requested, if the selected
synchronization mode is neither `PSCW` nor `FENCE` then `main` terminates
without running an engine and without allocating a window, and its exit status
is a failure, except on rank 0 when option processing returned
`PO_VERSION_MESSAGE` and the communicator was created: there `main` prints the
version and exits with success before the synchronization mode is examined. -/
theorem unsupported_sync_rejected (w : World) (fuel : Nat) (inp : MainInput)
    (hval : inp.options.validate = false)
    (hs1 : inp.options.sync ≠ SYNC.PSCW) (hs2 : inp.options.sync ≠ SYNC.FENCE) :
    (main w fuel inp).exit
        = some (if inp.rank = 0 ∧ inp.po_ret = PO.PO_VERSION_MESSAGE
            ∧ inp.comm_null = false then Exit.EXIT_SUCCESS else Exit.EXIT_FAILURE)
      ∧ engine_calls (main w fuel inp).trace = []
      ∧ allocations (main w fuel inp).trace = [] := by
  have key : (main w fuel inp).exit
        = some (if inp.rank = 0 ∧ inp.po_ret = PO.PO_VERSION_MESSAGE
            ∧ inp.comm_null = false then Exit.EXIT_SUCCESS else Exit.EXIT_FAILURE)
      ∧ engine_calls (main w fuel inp).trace = [] := by
    unfold main
    cases hcn : inp.comm_null <;> cases hpo : inp.po_ret <;>
      cases hia : inp.init_accel_fails <;> cases han : inp.options.accel_none <;>
      simp only [hval, hs1, hs2, OMB_ERROR_EXIT, rank0_messages, Bool.and_false,
        Bool.false_eq_true, if_false, ne_eq, not_false_eq_true, if_true, reduceCtorEq,
        decide_True, decide_False, Bool.and_true, Bool.true_and, and_false, and_true,
        decide_not, Bool.not_true, Bool.not_false, false_and, Bool.and_self,
        Bool.false_and] <;>
      (try split_ifs) <;> simp_all [engine_calls, engine_of, List.filterMap_append]
  exact ⟨key.1, key.2, by simp [allocations, key.2]⟩

/-- C7, as amended, on rank 0 with a version request and an unsupported
synchronization mode. -/
theorem unsupported_sync_rejected_witness :
    (version_input.options.validate = false
        ∧ version_input.options.sync ≠ SYNC.PSCW
        ∧ version_input.options.sync ≠ SYNC.FENCE)
      ∧ (main sample_world 4 version_input).exit
          = some (if version_input.rank = 0
              ∧ version_input.po_ret = PO.PO_VERSION_MESSAGE
              ∧ version_input.comm_null = false then Exit.EXIT_SUCCESS
            else Exit.EXIT_FAILURE)
      ∧ engine_calls (main sample_world 4 version_input).trace = []
      ∧ allocations (main sample_world 4 version_input).trace = [] :=
  ⟨⟨rfl, by decide, by decide⟩,
    unsupported_sync_rejected sample_world 4 version_input rfl (by decide) (by decide)⟩

/-- C7 fails as stated on rank 0 when option processing returned
`PO_VERSION_MESSAGE`: validation is not requested, the synchronization mode is
neither `PSCW` nor `FENCE`, and `main` exits with `EXIT_SUCCESS` after printing
the version. -/
theorem version_request_exits_success :
    version_input.options.validate = false
      ∧ version_input.options.sync ≠ SYNC.PSCW
      ∧ version_input.options.sync ≠ SYNC.FENCE
      ∧ (main sample_world 4 version_input).exit = some Exit.EXIT_SUCCESS
      ∧ (main sample_world 4 version_input).trace
          = [MainEv.process_options, MainEv.populate_mpi_type_list, MainEv.mpi_init,
              MainEv.comm_rank, MainEv.comm_size, MainEv.version_message,
              MainEv.finalize] := by
  refine ⟨rfl, by decide, by decide, ?_, ?_⟩ <;> rfl

/-! ## The rounds of the post/start/complete/wait engine -/

theorem put_batch_target (size : Int) (n target : Nat) (disp : Int) :
    (put_batch size n target disp).length = n
      ∧ ∀ e ∈ put_batch size n target disp,
          ∃ a b c d, e = Ev.put a b target c d := by
  refine ⟨by simp [put_batch], ?_⟩
  intro e he
  simp only [put_batch, List.mem_map] at he
  obtain ⟨j, _, rfl⟩ := he
  exact ⟨_, _, _, _, rfl⟩

theorem record_round_not_comm (o : Options) (i : Nat) :
    (record_round o i).all (fun e => !is_comm e) = true := by
  unfold record_round
  split_ifs <;> simp [is_comm]

/-- The shape of a round of the post/start/complete/wait engine. -/
theorem pscw_round_shape (o : Options) (rank n : Nat) (size disp : Int) (i : Nat) :
    ∃ before after : List Ev,
      pscw_round o rank n size disp i
          = before ++ ([Ev.post (peer_of rank), Ev.start (peer_of rank)]
              ++ put_batch size n (peer_of rank) disp ++ [Ev.complete, Ev.wait]) ++ after
        ∧ before.all (fun e => !is_comm e) = true
        ∧ after.all (fun e => !is_comm e) = true := by
  by_cases hr : rank = 0
  · refine ⟨(if i = o.skip then [Ev.papi_start, Ev.wtime] else [])
        ++ (if i ≥ o.skip then [Ev.wtime] else []), record_round o i, ?_, ?_,
      record_round_not_comm o i⟩
    · simp [pscw_round, peer_of, hr]
    · split_ifs <;> simp [is_comm]
  · refine ⟨if i = o.skip then [Ev.papi_start] else [], [], ?_, ?_, rfl⟩
    · simp [pscw_round, peer_of, hr]
    · split_ifs <;> simp [is_comm]

theorem put_batch_comm (size : Int) (n target : Nat) (disp : Int) :
    (put_batch size n target disp).filter is_comm = put_batch size n target disp := by
  apply List.filter_eq_self.2
  intro e he
  obtain ⟨a, b, c, d, rfl⟩ := (put_batch_target size n target disp).2 e he
  rfl

theorem record_round_comm (o : Options) (i : Nat) :
    (record_round o i).filter is_comm = [] := by
  unfold record_round
  split_ifs <;> simp [is_comm]

/-- The communication calls of a round of the post/start/complete/wait engine. -/
theorem pscw_round_comm (o : Options) (rank n : Nat) (size disp : Int) (i : Nat) :
    (pscw_round o rank n size disp i).filter is_comm
      = [Ev.post (peer_of rank), Ev.start (peer_of rank)]
          ++ put_batch size n (peer_of rank) disp ++ [Ev.complete, Ev.wait] := by
  unfold pscw_round
  by_cases hr : rank = 0
  · simp only [hr, if_true, peer_of, List.filter_append, put_batch_comm, record_round_comm]
    split_ifs <;> simp [is_comm]
  · simp only [hr, if_false, peer_of, List.filter_append, put_batch_comm]
    split_ifs <;> simp [is_comm]

/-- C8. In `run_put_with_pscw`, on each rank and for every round of every size
step, the sequence of communication calls of the round is exactly `post(peer)`,
`start(peer)`, `window_size` puts all targeting the peer (rank 0 targets 1, the
other rank targets 0), `complete`, `wait`, in that order; these calls are
contiguous in the round, preceded and followed only by calls that are not
communication calls (timing and sample stores on rank 0). -/
theorem pscw_round_sequence (w : World) (fuel : Nat) (o : Options) (rank : Nat)
    (type : WINDOW) :
    ∀ st ∈ (run_put_with_pscw w fuel o rank type).steps, ∀ r ∈ st.rounds,
      r.filter is_comm
          = [Ev.post (peer_of rank), Ev.start (peer_of rank)]
            ++ put_batch st.size o.window_size (peer_of rank) (disp_of w type st.size)
            ++ [Ev.complete, Ev.wait]
        ∧ (∃ before after : List Ev,
        r = before ++ ([Ev.post (peer_of rank), Ev.start (peer_of rank)]
              ++ put_batch st.size o.window_size (peer_of rank) (disp_of w type st.size)
              ++ [Ev.complete, Ev.wait]) ++ after
          ∧ before.all (fun e => !is_comm e) = true
          ∧ after.all (fun e => !is_comm e) = true)
        ∧ (put_batch st.size o.window_size (peer_of rank) (disp_of w type st.size)).length
            = o.window_size
        ∧ ∀ e ∈ put_batch st.size o.window_size (peer_of rank) (disp_of w type st.size),
            ∃ a b c d, e = Ev.put a b (peer_of rank) c d := by
  refine size_sweep_forall (pscw_step w rank type o.window_size) (fun _ _ => True)
    (fun st => ∀ r ∈ st.rounds,
      r.filter is_comm
          = [Ev.post (peer_of rank), Ev.start (peer_of rank)]
            ++ put_batch st.size o.window_size (peer_of rank) (disp_of w type st.size)
            ++ [Ev.complete, Ev.wait]
        ∧ (∃ before after : List Ev,
        r = before ++ ([Ev.post (peer_of rank), Ev.start (peer_of rank)]
              ++ put_batch st.size o.window_size (peer_of rank) (disp_of w type st.size)
              ++ [Ev.complete, Ev.wait]) ++ after
          ∧ before.all (fun e => !is_comm e) = true
          ∧ after.all (fun e => !is_comm e) = true)
        ∧ (put_batch st.size o.window_size (peer_of rank) (disp_of w type st.size)).length
            = o.window_size
        ∧ ∀ e ∈ put_batch st.size o.window_size (peer_of rank) (disp_of w type st.size),
            ∃ a b c d, e = Ev.put a b (peer_of rank) c d) ?_ fuel _ _ trivial
  intro size o1 _
  refine ⟨?_, trivial⟩
  intro r hr
  simp only [pscw_step, pscw_body, List.mem_map] at hr
  obtain ⟨i, _, rfl⟩ := hr
  exact ⟨pscw_round_comm _ rank o.window_size size _ i,
    pscw_round_shape _ rank o.window_size size _ i,
    put_batch_target size o.window_size (peer_of rank) _⟩

/-- C8 on the first round of the first size step on rank 0 under the sample
configuration. -/
theorem pscw_round_sequence_witness :
    (sample_pscw_step
          ∈ (run_put_with_pscw sample_world 4 sample_options 0 WINDOW.WIN_ALLOCATE).steps
        ∧ sample_pscw_round ∈ sample_pscw_step.rounds)
      ∧ (sample_pscw_round.filter is_comm
            = [Ev.post (peer_of 0), Ev.start (peer_of 0)]
              ++ put_batch sample_pscw_step.size sample_options.window_size (peer_of 0)
                  (disp_of sample_world WINDOW.WIN_ALLOCATE sample_pscw_step.size)
              ++ [Ev.complete, Ev.wait]
        ∧ (∃ before after : List Ev,
          sample_pscw_round = before ++ ([Ev.post (peer_of 0), Ev.start (peer_of 0)]
                ++ put_batch sample_pscw_step.size sample_options.window_size (peer_of 0)
                    (disp_of sample_world WINDOW.WIN_ALLOCATE sample_pscw_step.size)
                ++ [Ev.complete, Ev.wait]) ++ after
            ∧ before.all (fun e => !is_comm e) = true
            ∧ after.all (fun e => !is_comm e) = true)
        ∧ (put_batch sample_pscw_step.size sample_options.window_size (peer_of 0)
              (disp_of sample_world WINDOW.WIN_ALLOCATE sample_pscw_step.size)).length
            = sample_options.window_size
        ∧ ∀ e ∈ put_batch sample_pscw_step.size sample_options.window_size (peer_of 0)
              (disp_of sample_world WINDOW.WIN_ALLOCATE sample_pscw_step.size),
            ∃ a b c d, e = Ev.put a b (peer_of 0) c d) :=
  ⟨⟨sample_pscw_step_mem, sample_pscw_round_mem⟩,
    pscw_round_sequence sample_world 4 sample_options 0 WINDOW.WIN_ALLOCATE
      sample_pscw_step sample_pscw_step_mem sample_pscw_round sample_pscw_round_mem⟩

/-! ## The puts of one epoch and the window -/

theorem put_batch_calls (size : Int) (n target : Nat) (disp : Int) :
    put_calls (put_batch size n target disp)
      = (List.range n).map fun (j : Nat) =>
          (wrap_int ((j : Int) * size), size, target,
            disp + wrap_int ((j : Int) * size), size) := by
  simp only [put_calls, put_batch, List.filterMap_map, put_of, Function.comp_def]
  induction List.range n with
  | nil => rfl
  | cons a l ih => simp [List.filterMap_cons, ih]

theorem record_round_puts (o : Options) (i : Nat) :
    put_calls (record_round o i) = [] := by
  unfold record_round put_calls
  split_ifs <;> simp [put_of]

theorem fence_round_puts (o : Options) (rank n : Nat) (size disp : Int) (i : Nat) :
    put_calls (fence_round o rank n size disp i)
      = (List.range n).map fun (j : Nat) =>
          (wrap_int ((j : Int) * size), size, peer_of rank,
            disp + wrap_int ((j : Int) * size), size) := by
  have hb := put_batch_calls size n (peer_of rank) disp
  have hr := record_round_puts o i
  unfold put_calls at hb hr ⊢
  unfold fence_round
  by_cases h0 : rank = 0
  · simp only [peer_of, h0, if_true, List.filterMap_append] at hb ⊢
    rw [hb, hr]
    split_ifs <;> simp [put_of]
  · simp only [peer_of, h0, if_false, List.filterMap_append] at hb ⊢
    rw [hb]
    split_ifs <;> simp [put_of]

theorem pscw_round_puts (o : Options) (rank n : Nat) (size disp : Int) (i : Nat) :
    put_calls (pscw_round o rank n size disp i)
      = (List.range n).map fun (j : Nat) =>
          (wrap_int ((j : Int) * size), size, peer_of rank,
            disp + wrap_int ((j : Int) * size), size) := by
  have hb := put_batch_calls size n (peer_of rank) disp
  have hr := record_round_puts o i
  unfold put_calls at hb hr ⊢
  unfold pscw_round
  by_cases h0 : rank = 0
  · simp only [peer_of, h0, if_true, List.filterMap_append] at hb ⊢
    rw [hb, hr]
    split_ifs <;> simp [put_of]
  · simp only [peer_of, h0, if_false, List.filterMap_append] at hb ⊢
    rw [hb]
    split_ifs <;> simp [put_of]

theorem put_batch_capacity (size : Int) (n target : Nat) (disp : Int) :
    (put_batch size n target disp).filterMap capacity_of = [] := by
  simp [put_batch, List.filterMap_map, capacity_of, Function.comp_def]

theorem record_round_capacity (o : Options) (i : Nat) :
    (record_round o i).filterMap capacity_of = [] := by
  unfold record_round
  split_ifs <;> simp [capacity_of]

theorem fence_round_capacity (o : Options) (rank n : Nat) (size disp : Int) (i : Nat) :
    (fence_round o rank n size disp i).filterMap capacity_of = [] := by
  unfold fence_round
  split_ifs <;>
    simp [List.filterMap_append, put_batch_capacity, record_round_capacity, capacity_of]

theorem pscw_round_capacity (o : Options) (rank n : Nat) (size disp : Int) (i : Nat) :
    (pscw_round o rank n size disp i).filterMap capacity_of = [] := by
  unfold pscw_round
  split_ifs <;>
    simp [List.filterMap_append, put_batch_capacity, record_round_capacity, capacity_of]

theorem report_capacity (o : Options) (rank : Nat) (size : Int) (t : ℚ) :
    (report o rank size t).filterMap capacity_of = [] := by
  unfold report
  split_ifs <;> simp [List.filterMap_append, capacity_of]

theorem fence_step_capacity (w : World) (rank : Nat) (type : WINDOW) (n : Nat) (size : Int)
    (o : Options) :
    capacity_requests (fence_body w rank type n size o)
      = [wrap_int (size * (n : Int))] := by
  simp only [capacity_requests, step_events, fence_body, List.filterMap_append,
    filterMap_rounds, report_capacity, closing_time_filterMap capacity_of rfl]
  rw [flatten_map_nil _ _ (fun i _ => fence_round_capacity _ _ _ _ _ i)]
  simp [capacity_of]

theorem pscw_step_capacity (w : World) (rank : Nat) (type : WINDOW) (n : Nat) (size : Int)
    (o : Options) :
    capacity_requests (pscw_body w rank type n size o)
      = [wrap_int (size * (n : Int))] := by
  simp only [capacity_requests, step_events, pscw_body, List.filterMap_append,
    filterMap_rounds, report_capacity, closing_time_filterMap capacity_of rfl]
  rw [flatten_map_nil _ _ (fun i _ => pscw_round_capacity _ _ _ _ _ i)]
  simp [capacity_of]

/-- Two loop bodies that leave the same options and agree on an observation of
their steps give sweeps that agree on it. -/
theorem size_sweep_map_congr {α : Type} (f : StepTrace → α)
    (b1 b2 : Int → Options → StepTrace × Options)
    (h : ∀ size o, f (b1 size o).1 = f (b2 size o).1 ∧ (b1 size o).2 = (b2 size o).2) :
    ∀ (fuel : Nat) (size : Int) (o : Options),
      (size_sweep b1 fuel size o).1.map f = (size_sweep b2 fuel size o).1.map f := by
  intro fuel
  induction fuel with
  | zero => intro size o; rfl
  | succ n ih =>
    intro size o
    unfold size_sweep
    split_ifs
    · simp only [List.map_cons, (h size o).1, (h size o).2, ih]
    · simp only [List.map_cons, (h size o).1, List.map_nil]
    · simp only [List.map_cons, (h size o).1, List.map_nil]
    · rfl

/-- The sizes visited by a sweep that starts at a size of at least one are at
least one. -/
theorem sweep_sizes_pos (body : Int → Options → StepTrace × Options)
    (hsize : ∀ size o, (body size o).1.size = size) (fuel : Nat) (size : Int) (o : Options)
    (h : 1 ≤ size) : ∀ st ∈ (size_sweep body fuel size o).1, 1 ≤ st.size :=
  size_sweep_forall body (fun size _ => 1 ≤ size) (fun st => 1 ≤ st.size)
    (fun size o hs => ⟨by show 1 ≤ (body size o).1.size; rw [hsize]; exact hs,
      by show 1 ≤ size * 2; have : 1 ≤ size := hs; omega⟩) fuel size o h

/-- The byte ranges `[j * s, j * s + s)` for `j < n` are within `[0, s * n)`,
contiguous, pairwise disjoint, and cover `[0, s * n)`. -/
theorem slots_tile (s : Int) (n : Nat) (hs : 1 ≤ s) :
    (∀ j : Nat, j < n → 0 ≤ (j : Int) * s ∧ (j : Int) * s + s ≤ s * (n : Int))
      ∧ (∀ j : Nat, ((j + 1 : Nat) : Int) * s = (j : Int) * s + s)
      ∧ (∀ j k : Nat, j < k → (j : Int) * s + s ≤ (k : Int) * s)
      ∧ (∀ x : Int, (0 ≤ x ∧ x < s * (n : Int))
          ↔ ∃ j : Nat, j < n ∧ (j : Int) * s ≤ x ∧ x < (j : Int) * s + s) := by
  refine ⟨?_, ?_, ?_, ?_⟩
  · intro j hj
    have h1 : ((j : Int) + 1) ≤ (n : Int) := by exact_mod_cast hj
    have h0 : (0 : Int) ≤ (j : Int) := Int.natCast_nonneg j
    constructor
    · positivity
    · nlinarith
  · intro j
    push_cast
    ring
  · intro j k hjk
    have h1 : ((j : Int) + 1) ≤ (k : Int) := by exact_mod_cast hjk
    nlinarith
  · intro x
    constructor
    · rintro ⟨hx0, hxn⟩
      have hspos : (0 : Int) < s := by omega
      have hq0 : 0 ≤ x / s := Int.ediv_nonneg hx0 (by omega)
      have hmul : x / s * s ≤ x := Int.ediv_mul_le x (by omega)
      have hlt : x < (x / s + 1) * s := Int.lt_ediv_add_one_mul_self x hspos
      have hqn : x / s < (n : Int) := by
        by_contra hcon
        have : (n : Int) ≤ x / s := not_lt.mp hcon
        nlinarith
      refine ⟨(x / s).toNat, ?_, ?_, ?_⟩
      · have : ((x / s).toNat : Int) = x / s := Int.toNat_of_nonneg hq0
        omega
      · rw [Int.toNat_of_nonneg hq0]; exact hmul
      · rw [Int.toNat_of_nonneg hq0]; linarith
    · rintro ⟨j, hj, hlo, hhi⟩
      have h1 : ((j : Int) + 1) ≤ (n : Int) := by exact_mod_cast hj
      have h0 : (0 : Int) ≤ (j : Int) := Int.natCast_nonneg j
      constructor
      · have : (0 : Int) ≤ (j : Int) * s := by positivity
        omega
      · nlinarith

theorem const_sum (s : Int) (n : Nat) :
    (((List.range n).map fun (j : Nat) =>
        ((j : Int) * s, s, (0 : Nat), (0 : Int), s)).map fun p => p.2.1).sum
      = s * (n : Int) := by
  induction n with
  | zero => simp
  | succ n ih =>
    rw [List.range_succ, List.map_append, List.map_append, List.sum_append, ih]
    simp only [List.map_cons, List.map_nil, List.sum_cons, List.sum_nil]
    push_cast
    ring

theorem bytes_of_puts (s : Int) (n target : Nat) (disp : Int) :
    (((List.range n).map fun (j : Nat) =>
        ((j : Int) * s, s, target, disp + (j : Int) * s, s)).map fun p => p.2.1).sum
      = s * (n : Int) := by
  rw [← const_sum s n]
  simp only [List.map_map, Function.comp_def]

/-- The `int` products `j * s` of the offsets do not wrap around when `s * n`
fits `int`. -/
theorem puts_unwrap (s : Int) (n target : Nat) (disp : Int) (hs : 1 ≤ s)
    (hrep : s * (n : Int) ≤ INT_MAX) :
    ((List.range n).map fun (j : Nat) =>
        (wrap_int ((j : Int) * s), s, target, disp + wrap_int ((j : Int) * s), s))
      = (List.range n).map fun (j : Nat) =>
        ((j : Int) * s, s, target, disp + (j : Int) * s, s) := by
  apply List.map_congr_left
  intro j hj
  have hb := (slots_tile s n hs).1 j (List.mem_range.1 hj)
  have hw : wrap_int ((j : Int) * s) = (j : Int) * s :=
    wrap_int_of_fits _ (by unfold INT_MIN; omega) (by omega)
  rw [hw]

/-- C10. In both engines, on every rank, for every size step `s` of a sweep that
starts at a size of at least one, with `w = window_size` and `s * w`
representable as `int`: `s >= 1`; the capacity requested from
`allocate_memory_one_sided` for the step is `s * w`; the puts of every round are
the `w` puts with origin offset `j * s`, target displacement `disp + j * s` and
length `s`, for `j = 0 .. w - 1` in order, all to the peer, and they move
`s * w` bytes; every range `[j * s, j * s + s)` lies within `[0, s * w)` and
within the range of `int`, consecutive ranges are contiguous, distinct ranges
are disjoint, and the ranges cover `[0, s * w)` exactly. The capacities
requested along the sweep are the same on rank 0 and on rank 1. -/
theorem puts_tile_window (w : World) (fuel : Nat) (o : Options) (rank : Nat)
    (type : WINDOW) (hmin : 1 ≤ o.min_message_size) :
    (∀ run ∈ [run_put_with_fence w fuel o rank type, run_put_with_pscw w fuel o rank type],
      ∀ st ∈ run.steps, st.size * (o.window_size : Int) ≤ INT_MAX →
        1 ≤ st.size
          ∧ capacity_requests st = [st.size * (o.window_size : Int)]
          ∧ (∀ r ∈ st.rounds,
              put_calls r = ((List.range o.window_size).map fun (j : Nat) =>
                  ((j : Int) * st.size, st.size, peer_of rank,
                    disp_of w type st.size + (j : Int) * st.size, st.size))
                ∧ bytes_moved r = st.size * (o.window_size : Int))
          ∧ (∀ j : Nat, j < o.window_size →
              0 ≤ (j : Int) * st.size
                ∧ (j : Int) * st.size + st.size ≤ st.size * (o.window_size : Int)
                ∧ (j : Int) * st.size + st.size ≤ INT_MAX)
          ∧ (∀ j : Nat, ((j + 1 : Nat) : Int) * st.size = (j : Int) * st.size + st.size)
          ∧ (∀ j k : Nat, j < k → (j : Int) * st.size + st.size ≤ (k : Int) * st.size)
          ∧ (∀ x : Int, (0 ≤ x ∧ x < st.size * (o.window_size : Int))
              ↔ ∃ j : Nat, j < o.window_size ∧ (j : Int) * st.size ≤ x
                  ∧ x < (j : Int) * st.size + st.size))
      ∧ (run_put_with_fence w fuel o 0 type).steps.map capacity_requests
          = (run_put_with_fence w fuel o 1 type).steps.map capacity_requests
      ∧ (run_put_with_pscw w fuel o 0 type).steps.map capacity_requests
          = (run_put_with_pscw w fuel o 1 type).steps.map capacity_requests := by
  refine ⟨?_, ?_, ?_⟩
  · intro run hrun st hst hrep
    have hpos : 1 ≤ st.size := by
      simp only [List.mem_cons, List.mem_singleton, List.not_mem_nil, or_false] at hrun
      rcases hrun with rfl | rfl
      · exact sweep_sizes_pos _ (fun _ _ => rfl) fuel _ _ hmin st hst
      · exact sweep_sizes_pos _ (fun _ _ => rfl) fuel _ _ hmin st hst
    obtain ⟨t1, t2, t3, t4⟩ := slots_tile st.size o.window_size hpos
    have hfacts : capacity_requests st = [st.size * (o.window_size : Int)]
        ∧ ∀ r ∈ st.rounds,
            put_calls r = ((List.range o.window_size).map fun (j : Nat) =>
                ((j : Int) * st.size, st.size, peer_of rank,
                  disp_of w type st.size + (j : Int) * st.size, st.size))
              ∧ bytes_moved r = st.size * (o.window_size : Int) := by
      simp only [List.mem_cons, List.mem_singleton, List.not_mem_nil, or_false] at hrun
      rcases hrun with rfl | rfl
      · have e := fence_sweep_steps w o rank type hmin fuel st hst
        refine ⟨by
          rw [e, fence_step_capacity]
          have h0 : (0 : Int) ≤ st.size * (o.window_size : Int) :=
            mul_nonneg (by omega) (Int.natCast_nonneg _)
          exact congrArg (fun c => [c]) (wrap_int_of_fits _
            (by unfold INT_MIN; omega) hrep), ?_⟩
        intro r hr
        rw [e] at hr
        simp only [fence_body, List.mem_map] at hr
        obtain ⟨i, _, rfl⟩ := hr
        have hp := fence_round_puts (switch_counts w st.size o) rank o.window_size st.size
          (disp_of w type st.size) i
        rw [puts_unwrap st.size o.window_size _ _ hpos hrep] at hp
        exact ⟨hp, by unfold bytes_moved; rw [hp, bytes_of_puts]⟩
      · have e := pscw_sweep_steps w o rank type hmin fuel st hst
        refine ⟨by
          rw [e, pscw_step_capacity]
          have h0 : (0 : Int) ≤ st.size * (o.window_size : Int) :=
            mul_nonneg (by omega) (Int.natCast_nonneg _)
          exact congrArg (fun c => [c]) (wrap_int_of_fits _
            (by unfold INT_MIN; omega) hrep), ?_⟩
        intro r hr
        rw [e] at hr
        simp only [pscw_body, List.mem_map] at hr
        obtain ⟨i, _, rfl⟩ := hr
        have hp := pscw_round_puts (switch_counts w st.size o) rank o.window_size st.size
          (disp_of w type st.size) i
        rw [puts_unwrap st.size o.window_size _ _ hpos hrep] at hp
        exact ⟨hp, by unfold bytes_moved; rw [hp, bytes_of_puts]⟩
    refine ⟨hpos, hfacts.1, hfacts.2, ?_, t2, t3, t4⟩
    intro j hj
    have := t1 j hj
    exact ⟨this.1, this.2, le_trans this.2 hrep⟩
  · exact size_sweep_map_congr capacity_requests
      (fence_step w 0 type o.window_size) (fence_step w 1 type o.window_size)
      (fun size o1 => ⟨by
        simp only [fence_step, fence_step_capacity], rfl⟩) fuel o.min_message_size o
  · exact size_sweep_map_congr capacity_requests
      (pscw_step w 0 type o.window_size) (pscw_step w 1 type o.window_size)
      (fun size o1 => ⟨by
        simp only [pscw_step, pscw_step_capacity], rfl⟩) fuel o.min_message_size o

/-- C10 on the first size step on rank 0 under the sample configuration: a
capacity of 64 bytes, tiled by 64 puts of one byte. -/
theorem puts_tile_window_witness :
    (1 ≤ sample_options.min_message_size
        ∧ sample_pscw_step
          ∈ (run_put_with_pscw sample_world 4 sample_options 0 WINDOW.WIN_ALLOCATE).steps
        ∧ sample_pscw_step.size * (sample_options.window_size : Int) ≤ INT_MAX
        ∧ sample_pscw_round ∈ sample_pscw_step.rounds)
      ∧ capacity_requests sample_pscw_step = [1 * 64]
      ∧ put_calls sample_pscw_round
          = ((List.range sample_options.window_size).map fun (j : Nat) =>
              ((j : Int) * sample_pscw_step.size, sample_pscw_step.size, peer_of 0,
                disp_of sample_world WINDOW.WIN_ALLOCATE sample_pscw_step.size
                  + (j : Int) * sample_pscw_step.size, sample_pscw_step.size))
      ∧ bytes_moved sample_pscw_round = 1 * 64 :=
  ⟨⟨by decide, sample_pscw_step_mem, by decide, sample_pscw_round_mem⟩,
    ((puts_tile_window sample_world 4 sample_options 0 WINDOW.WIN_ALLOCATE (by decide)).1
      _ (List.mem_cons_of_mem _ (List.mem_singleton_self _))
      sample_pscw_step sample_pscw_step_mem (by decide)).2.1,
    (((puts_tile_window sample_world 4 sample_options 0 WINDOW.WIN_ALLOCATE (by decide)).1
      _ (List.mem_cons_of_mem _ (List.mem_singleton_self _))
      sample_pscw_step sample_pscw_step_mem (by decide)).2.2.1
        sample_pscw_round sample_pscw_round_mem).1,
    (((puts_tile_window sample_world 4 sample_options 0 WINDOW.WIN_ALLOCATE (by decide)).1
      _ (List.mem_cons_of_mem _ (List.mem_singleton_self _))
      sample_pscw_step sample_pscw_step_mem (by decide)).2.2.1
        sample_pscw_round sample_pscw_round_mem).2⟩

/-! ## Windows and groups of the post/start/complete/wait engine -/

theorem put_batch_no_resource (size : Int) (n target : Nat) (disp : Int) :
    ∀ e ∈ put_batch size n target disp, is_resource e = false := by
  intro e he
  obtain ⟨a, b, c, d, rfl⟩ := (put_batch_target size n target disp).2 e he
  rfl

theorem put_batch_all_no_resource (size : Int) (n target : Nat) (disp : Int) :
    (put_batch size n target disp).all (fun e => !is_resource e) = true :=
  List.all_eq_true.2 fun e he => by
    rw [put_batch_no_resource size n target disp e he]
    rfl

theorem record_round_all_no_resource (o : Options) (i : Nat) :
    (record_round o i).all (fun e => !is_resource e) = true := by
  unfold record_round
  split_ifs <;>
    simp [is_resource, is_alloc, is_group_incl, is_group_free, is_free_memory]

theorem pscw_round_all_no_resource (o : Options) (rank n : Nat) (size disp : Int)
    (i : Nat) :
    (pscw_round o rank n size disp i).all (fun e => !is_resource e) = true := by
  unfold pscw_round
  split_ifs <;>
    simp only [List.all_append, put_batch_all_no_resource, record_round_all_no_resource,
      Bool.and_true, Bool.true_and] <;>
    rfl

theorem pscw_round_no_resource (o : Options) (rank n : Nat) (size disp : Int) (i : Nat) :
    ∀ e ∈ pscw_round o rank n size disp i, is_resource e = false := by
  intro e he
  have h := List.all_eq_true.1 (pscw_round_all_no_resource o rank n size disp i) e he
  simpa using h

theorem report_all_no_resource (o : Options) (rank : Nat) (size : Int) (t : ℚ) :
    (report o rank size t).all (fun e => !is_resource e) = true := by
  unfold report
  split_ifs <;> rfl

theorem closing_time_all_no_resource (rank : Nat) :
    (closing_time rank).all (fun e => !is_resource e) = true := by
  unfold closing_time
  split_ifs <;> rfl

/-- A predicate that only holds of resource calls counts nothing in a sequence
without resource calls. -/
theorem countP_no_resource (p : Ev → Bool) (hp : ∀ e, p e = true → is_resource e = true)
    (l : List Ev) (h : l.all (fun e => !is_resource e) = true) : l.countP p = 0 := by
  rw [List.countP_eq_zero]
  intro e he hpe
  have h1 := List.all_eq_true.1 h e he
  rw [hp e hpe] at h1
  exact absurd h1 (by decide)

theorem is_alloc_resource (e : Ev) (h : is_alloc e = true) : is_resource e = true := by
  simp [is_resource, h]

theorem is_group_incl_resource (e : Ev) (h : is_group_incl e = true) :
    is_resource e = true := by
  simp [is_resource, h]

theorem is_group_free_resource (e : Ev) (h : is_group_free e = true) :
    is_resource e = true := by
  simp [is_resource, h]

theorem is_free_memory_resource (e : Ev) (h : is_free_memory e = true) :
    is_resource e = true := by
  simp [is_resource, h]

/-- A call that is not a resource call leaves the live windows and groups
unchanged. -/
theorem live_step_neutral (s : Live) (e : Ev) (h : is_resource e = false) :
    live_step s e = s := by
  cases e <;> first
    | rfl
    | exact absurd h (by
        simp [is_resource, is_alloc, is_group_incl, is_group_free, is_free_memory])

theorem live_after_neutral (l : List Ev) (h : l.all (fun e => !is_resource e) = true) :
    ∀ s : Live, live_after s l = s := by
  induction l with
  | nil => intro s; rfl
  | cons a l ih =>
    intro s
    simp only [List.all_cons, Bool.and_eq_true, Bool.not_eq_true'] at h
    show live_after (live_step s a) l = s
    rw [live_step_neutral s a h.1]
    exact ih h.2 s

theorem live_after_append (s : Live) (a b : List Ev) :
    live_after s (a ++ b) = live_after (live_after s a) b := by
  simp [live_after, List.foldl_append]

theorem rounds_all_no_resource (g : Nat → List Ev)
    (h : ∀ i, (g i).all (fun e => !is_resource e) = true) (l : List Nat) :
    ((l.map g).flatten).all (fun e => !is_resource e) = true := by
  induction l with
  | nil => rfl
  | cons a l ih => simp only [List.map_cons, List.flatten_cons, List.all_append, h a, ih,
      Bool.and_self]

/-- Every step of a sweep of the post/start/complete/wait engine is a step built
by its loop body at the size of the step, under some state of the options. -/
theorem pscw_steps_shape (w : World) (fuel : Nat) (o : Options) (rank : Nat)
    (type : WINDOW) :
    ∀ st ∈ (run_put_with_pscw w fuel o rank type).steps,
      ∃ o1, st = pscw_body w rank type o.window_size st.size o1 :=
  size_sweep_forall (pscw_step w rank type o.window_size) (fun _ _ => True)
    (fun st => ∃ o1, st = pscw_body w rank type o.window_size st.size o1)
    (fun size o1 _ => ⟨⟨switch_counts w size o1, rfl⟩, trivial⟩) fuel _ _ trivial

/-- Every step of a sweep of the fence engine is a step built by its loop body
at the size of the step, under some state of the options. -/
theorem fence_steps_shape (w : World) (fuel : Nat) (o : Options) (rank : Nat)
    (type : WINDOW) :
    ∀ st ∈ (run_put_with_fence w fuel o rank type).steps,
      ∃ o1, st = fence_body w rank type o.window_size st.size o1 :=
  size_sweep_forall (fence_step w rank type o.window_size) (fun _ _ => True)
    (fun st => ∃ o1, st = fence_body w rank type o.window_size st.size o1)
    (fun size o1 _ => ⟨⟨switch_counts w size o1, rfl⟩, trivial⟩) fuel _ _ trivial

theorem pscw_body_rounds_no_resource (w : World) (rank : Nat) (type : WINDOW) (n : Nat)
    (size : Int) (o1 : Options) :
    ((pscw_body w rank type n size o1).rounds.flatten).all (fun e => !is_resource e)
      = true :=
  rounds_all_no_resource _ (fun i => pscw_round_all_no_resource o1 rank n size _ i) _

theorem pscw_body_post_counts (w : World) (rank : Nat) (type : WINDOW) (n : Nat)
    (size : Int) (o1 : Options) :
    (pscw_body w rank type n size o1).post.countP is_group_free = 1
      ∧ (pscw_body w rank type n size o1).post.countP is_free_memory = 1
      ∧ (pscw_body w rank type n size o1).post.countP is_alloc = 0
      ∧ (pscw_body w rank type n size o1).post.countP is_group_incl = 0 := by
  have hc := closing_time_all_no_resource rank
  have hr := report_all_no_resource o1 rank size (elapsed_of w rank size)
  refine ⟨?_, ?_, ?_, ?_⟩
  · simp only [pscw_body, List.countP_append,
      countP_no_resource _ is_group_free_resource _ hc,
      countP_no_resource _ is_group_free_resource _ hr]
    rfl
  · simp only [pscw_body, List.countP_append,
      countP_no_resource _ is_free_memory_resource _ hc,
      countP_no_resource _ is_free_memory_resource _ hr]
    rfl
  · simp only [pscw_body, List.countP_append,
      countP_no_resource _ is_alloc_resource _ hc,
      countP_no_resource _ is_alloc_resource _ hr]
    rfl
  · simp only [pscw_body, List.countP_append,
      countP_no_resource _ is_group_incl_resource _ hc,
      countP_no_resource _ is_group_incl_resource _ hr]
    rfl

/-- A size step of the post/start/complete/wait engine makes each of the four
resource calls once. -/
theorem pscw_body_counts (w : World) (rank : Nat) (type : WINDOW) (n : Nat)
    (size : Int) (o1 : Options) :
    (step_events (pscw_body w rank type n size o1)).countP is_alloc = 1
      ∧ (step_events (pscw_body w rank type n size o1)).countP is_group_incl = 1
      ∧ (step_events (pscw_body w rank type n size o1)).countP is_group_free = 1
      ∧ (step_events (pscw_body w rank type n size o1)).countP is_free_memory = 1 := by
  obtain ⟨p1, p2, p3, p4⟩ := pscw_body_post_counts w rank type n size o1
  have hr := pscw_body_rounds_no_resource w rank type n size o1
  refine ⟨?_, ?_, ?_, ?_⟩
  · simp only [step_events, List.countP_append,
      countP_no_resource _ is_alloc_resource _ hr, p3]
    rfl
  · simp only [step_events, List.countP_append,
      countP_no_resource _ is_group_incl_resource _ hr, p4]
    rfl
  · simp only [step_events, List.countP_append,
      countP_no_resource _ is_group_free_resource _ hr, p1]
    rfl
  · simp only [step_events, List.countP_append,
      countP_no_resource _ is_free_memory_resource _ hr, p2]
    rfl

/-- A size step of the post/start/complete/wait engine leaves the live windows
and groups as it found them. -/
theorem pscw_body_live (w : World) (rank : Nat) (type : WINDOW) (n : Nat)
    (size : Int) (o1 : Options) (s : Live) :
    live_after s (step_events (pscw_body w rank type n size o1)) = s := by
  have hr := pscw_body_rounds_no_resource w rank type n size o1
  have hc := closing_time_all_no_resource rank
  have hp := report_all_no_resource o1 rank size (elapsed_of w rank size)
  simp only [step_events, live_after_append, live_after_neutral _ hr]
  simp only [pscw_body, live_after_append, live_after_neutral _ hc,
    live_after_neutral _ hp]
  cases s
  simp [live_after, live_step]

/-- Steps that each satisfy a predicate once satisfy it as often as there are
steps. -/
theorem steps_countP (p : Ev → Bool) (l : List StepTrace)
    (h : ∀ st ∈ l, (step_events st).countP p = 1) :
    (steps_events l).countP p = l.length := by
  induction l with
  | nil => rfl
  | cons a l ih =>
    have ha := h a (List.mem_cons_self a l)
    have hl := ih fun st hst => h st (List.mem_cons_of_mem a hst)
    unfold steps_events at hl ⊢
    simp only [List.map_cons, List.flatten_cons, List.countP_append, ha, hl,
      List.length_cons]
    omega

/-- Steps that each leave the live windows and groups unchanged leave them
unchanged together. -/
theorem steps_live (l : List StepTrace)
    (h : ∀ st ∈ l, ∀ s : Live, live_after s (step_events st) = s) :
    ∀ s : Live, live_after s (steps_events l) = s := by
  induction l with
  | nil => intro s; rfl
  | cons a l ih =>
    intro s
    have hl := ih (fun st hst => h st (List.mem_cons_of_mem a hst)) s
    unfold steps_events at hl ⊢
    simp only [List.map_cons, List.flatten_cons, live_after_append,
      h a (List.mem_cons_self a l) s, hl]

theorem pscw_before_no_resource (w : World) (fuel : Nat) (o : Options) (rank : Nat)
    (type : WINDOW) :
    (run_put_with_pscw w fuel o rank type).before.all (fun e => !is_resource e) = true := by
  unfold run_put_with_pscw
  simp only []
  split_ifs <;> rfl

theorem pscw_after_no_resource (w : World) (fuel : Nat) (o : Options) (rank : Nat)
    (type : WINDOW) :
    (run_put_with_pscw w fuel o rank type).after.all (fun e => !is_resource e) = true := by
  unfold run_put_with_pscw
  simp only []
  split_ifs <;> rfl

/-- C11. In `run_put_with_pscw`, on every rank and for every size step of the
sweep: the calls before the first round are the window allocation (of the
capacity `size * window_size` computed in `int`), the
allocation of the graph buffer, the barrier and the construction of the
single-peer group, so exactly one window allocation and one group construction,
both before the first round; no round creates or frees a window or a group;
the calls after the last round contain exactly one group free and one window
free, and no allocation or group construction; the step leaves the live windows
and groups as it found them. Over a run whose sweep has `k` size steps the
numbers of window allocations, group constructions, group frees and window
frees are all `k`, whatever `skip` and `iterations` are, and at the beginning of
every size step no window and no single-peer group is live. -/
theorem pscw_step_resources (w : World) (fuel : Nat) (o : Options) (rank : Nat)
    (type : WINDOW) :
    (∀ st ∈ (run_put_with_pscw w fuel o rank type).steps,
        st.pre = [Ev.allocate rank (wrap_int (st.size * (o.window_size : Int))),
            Ev.graph_alloc st.size st.opts.iterations, Ev.barrier,
            Ev.group_incl (peer_of rank)]
          ∧ (∀ r ∈ st.rounds, ∀ e ∈ r, is_resource e = false)
          ∧ st.post.countP is_group_free = 1
          ∧ st.post.countP is_free_memory = 1
          ∧ st.post.countP is_alloc = 0
          ∧ st.post.countP is_group_incl = 0
          ∧ ∀ s : Live, live_after s (step_events st) = s)
      ∧ (run_events (run_put_with_pscw w fuel o rank type)).countP is_alloc
          = (run_put_with_pscw w fuel o rank type).steps.length
      ∧ (run_events (run_put_with_pscw w fuel o rank type)).countP is_group_incl
          = (run_put_with_pscw w fuel o rank type).steps.length
      ∧ (run_events (run_put_with_pscw w fuel o rank type)).countP is_group_free
          = (run_put_with_pscw w fuel o rank type).steps.length
      ∧ (run_events (run_put_with_pscw w fuel o rank type)).countP is_free_memory
          = (run_put_with_pscw w fuel o rank type).steps.length
      ∧ ∀ n : Nat,
          live_after { windows := 0, groups := 0 }
              ((run_put_with_pscw w fuel o rank type).before
                ++ steps_events ((run_put_with_pscw w fuel o rank type).steps.take n))
            = { windows := 0, groups := 0 } := by
  have hshape := pscw_steps_shape w fuel o rank type
  have hb := pscw_before_no_resource w fuel o rank type
  have ha := pscw_after_no_resource w fuel o rank type
  have hcount : ∀ st ∈ (run_put_with_pscw w fuel o rank type).steps,
      (step_events st).countP is_alloc = 1 ∧ (step_events st).countP is_group_incl = 1
        ∧ (step_events st).countP is_group_free = 1
        ∧ (step_events st).countP is_free_memory = 1 := by
    intro st hst
    obtain ⟨o1, e⟩ := hshape st hst
    rw [e]
    exact pscw_body_counts w rank type o.window_size st.size o1
  have hlive : ∀ st ∈ (run_put_with_pscw w fuel o rank type).steps,
      ∀ s : Live, live_after s (step_events st) = s := by
    intro st hst s
    obtain ⟨o1, e⟩ := hshape st hst
    rw [e]
    exact pscw_body_live w rank type o.window_size st.size o1 s
  refine ⟨?_, ?_, ?_, ?_, ?_, ?_⟩
  · intro st hst
    obtain ⟨o1, e⟩ := hshape st hst
    obtain ⟨p1, p2, p3, p4⟩ := pscw_body_post_counts w rank type o.window_size st.size o1
    refine ⟨by rw [e]; rfl, ?_, by rw [e]; exact p1, by rw [e]; exact p2,
      by rw [e]; exact p3, by rw [e]; exact p4, hlive st hst⟩
    intro r hr x hx
    rw [e] at hr
    simp only [pscw_body, List.mem_map] at hr
    obtain ⟨i, _, rfl⟩ := hr
    exact pscw_round_no_resource _ _ _ _ _ i x hx
  · simp only [run_events, List.countP_append,
      countP_no_resource _ is_alloc_resource _ hb,
      countP_no_resource _ is_alloc_resource _ ha,
      steps_countP is_alloc _ (fun st hst => (hcount st hst).1)]
    omega
  · simp only [run_events, List.countP_append,
      countP_no_resource _ is_group_incl_resource _ hb,
      countP_no_resource _ is_group_incl_resource _ ha,
      steps_countP is_group_incl _ (fun st hst => (hcount st hst).2.1)]
    omega
  · simp only [run_events, List.countP_append,
      countP_no_resource _ is_group_free_resource _ hb,
      countP_no_resource _ is_group_free_resource _ ha,
      steps_countP is_group_free _ (fun st hst => (hcount st hst).2.2.1)]
    omega
  · simp only [run_events, List.countP_append,
      countP_no_resource _ is_free_memory_resource _ hb,
      countP_no_resource _ is_free_memory_resource _ ha,
      steps_countP is_free_memory _ (fun st hst => (hcount st hst).2.2.2)]
    omega
  · intro n
    rw [live_after_append, live_after_neutral _ hb]
    exact steps_live _ (fun st hst => hlive st (List.mem_of_mem_take hst)) _

theorem sample_post_mem : Ev.post 1 ∈ sample_pscw_round := by
  simp [sample_pscw_round, pscw_round, sample_options]

theorem sample_pscw_steps_length :
    (run_put_with_pscw sample_world 4 sample_options 0 WINDOW.WIN_ALLOCATE).steps.length
      = 3 :=
  rfl

/-- C11 on the first size step on rank 0 under the sample configuration, and on
the whole run: three size steps, three window allocations and three window
frees. -/
theorem pscw_step_resources_witness :
    (sample_pscw_step
          ∈ (run_put_with_pscw sample_world 4 sample_options 0 WINDOW.WIN_ALLOCATE).steps
        ∧ sample_pscw_round ∈ sample_pscw_step.rounds
        ∧ Ev.post 1 ∈ sample_pscw_round)
      ∧ sample_pscw_step.pre
          = [Ev.allocate 0
                (wrap_int (sample_pscw_step.size * (sample_options.window_size : Int))),
              Ev.graph_alloc sample_pscw_step.size sample_pscw_step.opts.iterations,
              Ev.barrier, Ev.group_incl (peer_of 0)]
      ∧ is_resource (Ev.post 1) = false
      ∧ sample_pscw_step.post.countP is_group_free = 1
      ∧ sample_pscw_step.post.countP is_free_memory = 1
      ∧ (run_events (run_put_with_pscw sample_world 4 sample_options 0
            WINDOW.WIN_ALLOCATE)).countP is_alloc = 3
      ∧ (run_events (run_put_with_pscw sample_world 4 sample_options 0
            WINDOW.WIN_ALLOCATE)).countP is_free_memory = 3
      ∧ live_after { windows := 0, groups := 0 }
            ((run_put_with_pscw sample_world 4 sample_options 0
                WINDOW.WIN_ALLOCATE).before
              ++ steps_events ((run_put_with_pscw sample_world 4 sample_options 0
                WINDOW.WIN_ALLOCATE).steps.take 1))
          = { windows := 0, groups := 0 } :=
  ⟨⟨sample_pscw_step_mem, sample_pscw_round_mem, sample_post_mem⟩,
    ((pscw_step_resources sample_world 4 sample_options 0 WINDOW.WIN_ALLOCATE).1
      sample_pscw_step sample_pscw_step_mem).1,
    ((pscw_step_resources sample_world 4 sample_options 0 WINDOW.WIN_ALLOCATE).1
      sample_pscw_step sample_pscw_step_mem).2.1 sample_pscw_round sample_pscw_round_mem
        (Ev.post 1) sample_post_mem,
    ((pscw_step_resources sample_world 4 sample_options 0 WINDOW.WIN_ALLOCATE).1
      sample_pscw_step sample_pscw_step_mem).2.2.1,
    ((pscw_step_resources sample_world 4 sample_options 0 WINDOW.WIN_ALLOCATE).1
      sample_pscw_step sample_pscw_step_mem).2.2.2.1,
    sample_pscw_steps_length ▸
      (pscw_step_resources sample_world 4 sample_options 0 WINDOW.WIN_ALLOCATE).2.1,
    sample_pscw_steps_length ▸
      (pscw_step_resources sample_world 4 sample_options 0 WINDOW.WIN_ALLOCATE).2.2.2.2.1,
    (pscw_step_resources sample_world 4 sample_options 0 WINDOW.WIN_ALLOCATE).2.2.2.2.2 1⟩

/-! ## The stores to the tail-latency array -/

end OsuPutBibw

namespace OsuAccLatency

/-! ## The post/start/complete/wait loop of the accumulate latency test -/

/-- Every step of the loop over `count` has a property that every step built by
the loop body has. -/
theorem count_loop_forall (rank : Nat) (P : Step → Prop)
    (hP : ∀ count skip loop, P
      { count := count, size := count * sizeof_int, skip := skip, loop := loop
        iterations := (List.range (skip + loop)).map (pscw_iteration rank skip count) }) :
    ∀ (fuel count skip loop : Nat) (l : List Step),
      count_loop rank fuel count skip loop = some l → ∀ st ∈ l, P st := by
  intro fuel
  induction fuel with
  | zero => intro count skip loop l h; simp [count_loop] at h
  | succ n ih =>
    intro count skip loop l h st hst
    unfold count_loop at h
    split_ifs at h with hc
    · simp only [Option.map_eq_some'] at h
      obtain ⟨rest, hrest, rfl⟩ := h
      rcases List.mem_cons.1 hst with rfl | hmem
      · exact hP _ _ _
      · exact ih _ _ _ rest hrest st hmem
    · simp only [Option.some.injEq] at h
      subst h
      simp at hst

/-- The calls of one iteration. On both ranks the own post precedes the wait. On
rank 0 the communication calls are start, accumulate, complete, post, wait, so
that the start, the accumulate and the complete precede the post; on the other
rank they are post, wait, start, accumulate, complete, so that the post
precedes the start. -/
theorem pscw_iteration_order (rank skip count i : Nat) :
    issued_before is_post is_wait (pscw_iteration rank skip count i)
      ∧ (rank ≠ 0 →
          issued_before is_post is_start (pscw_iteration rank skip count i)
            ∧ comm_calls (pscw_iteration rank skip count i)
                = [Call.post 0, Call.wait, Call.start 0, Call.accumulate 0 count,
                    Call.complete])
      ∧ (rank = 0 →
          issued_before is_start is_post (pscw_iteration rank skip count i)
            ∧ issued_before is_accumulate is_post (pscw_iteration rank skip count i)
            ∧ issued_before is_complete is_post (pscw_iteration rank skip count i)
            ∧ comm_calls (pscw_iteration rank skip count i)
                = [Call.start 1, Call.accumulate 1 count, Call.complete, Call.post 1,
                    Call.wait]) := by
  unfold pscw_iteration
  by_cases hr : rank = 0
  · by_cases hi : i = skip
    · simp [hr, hi, issued_before, first_index, List.findIdx_cons, is_post, is_start,
        is_wait, is_accumulate, is_complete, is_timing, comm_calls]
    · simp [hr, hi, issued_before, first_index, List.findIdx_cons, is_post, is_start,
        is_wait, is_accumulate, is_complete, is_timing, comm_calls]
  · simp [hr, issued_before, first_index, List.findIdx_cons, is_post, is_start, is_wait,
      is_accumulate, is_complete, is_timing, comm_calls]

/-- C9, as amended. The loop over `count` of `osu_acc_latency` ends, after 22
size steps. In every iteration of every size step, on rank 0 and on rank 1, the
rank does not call wait before its own post of that iteration has been issued.
On rank 1 the post is issued before the start against the window of the peer:
the communication calls of the iteration are post, wait, start, accumulate,
complete. On rank 0 the order is the opposite: the start, the accumulate and
the complete all precede the post, the communication calls of the iteration
being start, accumulate, complete, post, wait. -/
theorem acc_latency_call_order (rank : Nat) :
    (∃ l, steps rank 23 = some l ∧ l.length = 22)
      ∧ ∀ (fuel : Nat) (l : List Step), steps rank fuel = some l →
          ∀ st ∈ l, ∀ r ∈ st.iterations,
            issued_before is_post is_wait r
              ∧ (rank ≠ 0 →
                  issued_before is_post is_start r
                    ∧ comm_calls r
                        = [Call.post 0, Call.wait, Call.start 0,
                            Call.accumulate 0 st.count, Call.complete])
              ∧ (rank = 0 →
                  issued_before is_start is_post r
                    ∧ issued_before is_accumulate is_post r
                    ∧ issued_before is_complete is_post r
                    ∧ comm_calls r
                        = [Call.start 1, Call.accumulate 1 st.count, Call.complete,
                            Call.post 1, Call.wait]) := by
  constructor
  · refine ⟨_, rfl, ?_⟩
    rfl
  · intro fuel l hl
    refine count_loop_forall rank _ ?_ fuel 0 100 1000 l hl
    intro count skip loop r hr
    simp only [List.mem_map] at hr
    obtain ⟨i, _, rfl⟩ := hr
    exact pscw_iteration_order rank skip count i

theorem first_step_mem (rank : Nat) :
    ∃ rest, steps rank 23 = some (first_step rank :: rest) :=
  ⟨_, rfl⟩

theorem first_iteration_mem (rank : Nat) :
    first_iteration rank ∈ (first_step rank).iterations := by
  unfold first_iteration first_step
  simp only []
  have h0 : 0 ∈ List.range (100 + 1000) := List.mem_range.2 (by omega)
  exact List.mem_map_of_mem (pscw_iteration rank 100 0) h0

theorem rank1_steps_eq : steps 1 23 = some rank1_steps :=
  rfl

theorem rank1_first_step_mem : first_step 1 ∈ rank1_steps :=
  List.mem_cons_self _ _

theorem rank0_steps_eq : steps 0 23 = some rank0_steps :=
  rfl

theorem rank0_first_step_mem : first_step 0 ∈ rank0_steps :=
  List.mem_cons_self _ _

/-- C9, as amended, on the first iteration of the first size step of rank 1 and
of rank 0. -/
theorem acc_latency_call_order_witness :
    (steps 1 23 = some rank1_steps ∧ first_step 1 ∈ rank1_steps
        ∧ first_iteration 1 ∈ (first_step 1).iterations ∧ (1 : Nat) ≠ 0
        ∧ steps 0 23 = some rank0_steps ∧ first_step 0 ∈ rank0_steps
        ∧ first_iteration 0 ∈ (first_step 0).iterations)
      ∧ issued_before is_post is_wait (first_iteration 1)
      ∧ (issued_before is_post is_start (first_iteration 1)
          ∧ comm_calls (first_iteration 1)
              = [Call.post 0, Call.wait, Call.start 0,
                  Call.accumulate 0 (first_step 1).count, Call.complete])
      ∧ issued_before is_post is_wait (first_iteration 0)
      ∧ (issued_before is_start is_post (first_iteration 0)
          ∧ issued_before is_accumulate is_post (first_iteration 0)
          ∧ issued_before is_complete is_post (first_iteration 0)
          ∧ comm_calls (first_iteration 0)
              = [Call.start 1, Call.accumulate 1 (first_step 0).count, Call.complete,
                  Call.post 1, Call.wait]) :=
  ⟨⟨rank1_steps_eq, rank1_first_step_mem, first_iteration_mem 1, by decide,
      rank0_steps_eq, rank0_first_step_mem, first_iteration_mem 0⟩,
    ((acc_latency_call_order 1).2 23 rank1_steps rank1_steps_eq (first_step 1)
      rank1_first_step_mem (first_iteration 1) (first_iteration_mem 1)).1,
    ((acc_latency_call_order 1).2 23 rank1_steps rank1_steps_eq (first_step 1)
      rank1_first_step_mem (first_iteration 1) (first_iteration_mem 1)).2.1 (by decide),
    ((acc_latency_call_order 0).2 23 rank0_steps rank0_steps_eq (first_step 0)
      rank0_first_step_mem (first_iteration 0) (first_iteration_mem 0)).1,
    ((acc_latency_call_order 0).2 23 rank0_steps rank0_steps_eq (first_step 0)
      rank0_first_step_mem (first_iteration 0) (first_iteration_mem 0)).2.2 rfl⟩

/-- C9 fails as stated on rank 0: the first iteration of the first size step of
rank 0 is start, accumulate, complete, post, wait, so the start against the
window of the peer is called before the own post is issued. -/
theorem rank0_starts_before_post :
    (∃ rest, steps 0 23 = some (first_step 0 :: rest))
      ∧ first_iteration 0 ∈ (first_step 0).iterations
      ∧ first_iteration 0
          = [Call.start 1, Call.accumulate 1 0, Call.complete, Call.post 1, Call.wait]
      ∧ ¬ issued_before is_post is_start (first_iteration 0) :=
  ⟨first_step_mem 0, first_iteration_mem 0, by decide, by decide⟩

end OsuAccLatency
